import Mathlib

/-!
Verification development for a Scheme interpreter core
(`src/parser.cpp` analyzer and `src/evaluation.cpp` evaluator).

The C++ source is shallowly embedded below:

* `Stx` mirrors the syntax-tree classes (`Number`, `RationalSyntax`,
  `SymbolSyntax`, `StringSyntax`, `TrueSyntax`, `FalseSyntax`, `List`);
  the suffix `S` replaces the C++ `Syntax` suffix.
* `Expr` mirrors the analyzed expression classes constructed by
  `List::parse` / `Var::eval` (only the constructors the source actually
  builds; the unused binary arithmetic classes `Plus`, `Minus`, … appear
  in the source solely through their `evalRator` methods, which are
  embedded as plain functions `plusRator`, … below).
* `Val` mirrors the runtime value classes via their factory names
  (`IntegerV`, `RationalV`, …).  C++ `Pair` objects are mutable and
  compared by object identity, so they are represented by an address
  into an explicit pair heap inside the interpreter state `St`.
* Machine `int` is modelled as unbounded `Int` (the source performs no
  overflow checks except inside `expt`, whose `long long` intermediates
  provably stay below `2^63`, so unbounded arithmetic is exact there).
* Environments (`Assoc`) are not in `src/`; `find`/`extend`/`modify`
  are modelled from the spec (§4.1): a persistent association list from
  names to mutable cells, innermost binding first.
* The evaluator is step-indexed: `eval` takes a fuel argument that is
  consumed at every recursion level, and returns `none` exactly when the
  fuel runs out, so `some` results are results of the (unfueled) C++
  recursion.
-/

set_option maxHeartbeats 1000000

namespace Scheme

/-- Syntax tree nodes, as supplied by the (external) reader. -/
inductive Stx where
  | numberS (n : Int)
  | rationalS (numerator denominator : Int)
  | symbolS (s : String)
  | stringS (s : String)
  | trueS
  | falseS
  | listS (stxs : List Stx)

/-- The `ExprType` tags used by the `primitives` / `reserved_words`
tables (`Def.hpp`, declared `extern` in both source files). -/
inductive EType where
  | E_PLUS | E_MINUS | E_MUL | E_DIV | E_MODULO | E_EXPT
  | E_LIST | E_LISTQ
  | E_LT | E_LE | E_EQ | E_GE | E_GT
  | E_AND | E_OR | E_NOT
  | E_CONS | E_CAR | E_CDR | E_SETCAR | E_SETCDR
  | E_BOOLQ | E_INTQ | E_NULLQ | E_PAIRQ | E_PROCQ | E_SYMBOLQ | E_STRINGQ
  | E_EQQ | E_DISPLAY | E_VOID | E_EXIT
  | E_QUOTE | E_IF | E_LAMBDA | E_DEFINE | E_BEGIN | E_COND
  | E_LET | E_LETREC | E_SET
deriving DecidableEq

/-- Analyzed expression nodes (the classes of `expr.hpp` that the parser
and `Var::eval` construct). -/
inductive Expr where
  | Fixnum (n : Int)
  | RationalNum (numerator denominator : Int)
  | StringExpr (s : String)
  | TrueE
  | FalseE
  | MakeVoid
  | Exit
  | Var (x : String)
  | Apply (rator : Expr) (rand : List Expr)
  | PlusVar (rands : List Expr)
  | MinusVar (rands : List Expr)
  | MultVar (rands : List Expr)
  | DivVar (rands : List Expr)
  | LessVar (rands : List Expr)
  | LessEqVar (rands : List Expr)
  | EqualVar (rands : List Expr)
  | GreaterEqVar (rands : List Expr)
  | GreaterVar (rands : List Expr)
  | ListFunc (rands : List Expr)
  | AndVar (rands : List Expr)
  | OrVar (rands : List Expr)
  | Modulo (rand1 rand2 : Expr)
  | Expt (rand1 rand2 : Expr)
  | NotE (rand : Expr)
  | Cons (rand1 rand2 : Expr)
  | Car (rand : Expr)
  | Cdr (rand : Expr)
  | SetCar (rand1 rand2 : Expr)
  | SetCdr (rand1 rand2 : Expr)
  | IsEq (rand1 rand2 : Expr)
  | IsBoolean (rand : Expr)
  | IsFixnum (rand : Expr)
  | IsNull (rand : Expr)
  | IsPair (rand : Expr)
  | IsProcedure (rand : Expr)
  | IsSymbol (rand : Expr)
  | IsString (rand : Expr)
  | IsList (rand : Expr)
  | Display (rand : Expr)
  | Begin (es : List Expr)
  | Quote (s : Stx)
  | If (cond conseq alter : Expr)
  | Cond (clauses : List (List Expr))
  | Lambda (x : List String) (e : Expr)
  | Define (var : String) (e : Expr)
  | Let (bind : List (String × Expr)) (body : Expr)
  | Letrec (bind : List (String × Expr)) (body : Expr)
  | SetE (var : String) (e : Expr)

/-- An environment (`Assoc`): an association list from names to cell
addresses; `extend` conses, so the innermost binding comes first.
Modelled from the spec: the environment implementation is not in
`src/`; §4.1 specifies a persistent chain of frames with shared mutable
value slots, which the name-to-cell indirection realizes. -/
abbrev Env := List (String × Nat)

/-- Runtime values, named after the factory functions of `value.hpp`
(`IntegerV`, `RationalV`, …).  A `PairV` holds an address into the pair
heap of `St`, mirroring C++ object identity of mutable pairs.
Identity of non-pair values (which `eq?` also consults) is not tracked:
no claim depends on it. -/
inductive Val where
  | IntegerV (n : Int)
  | RationalV (numerator denominator : Int)
  | BooleanV (b : Bool)
  | StringV (s : String)
  | SymbolV (s : String)
  | PairV (addr : Nat)
  | NullV
  | VoidV
  | ProcedureV (parameters : List String) (e : Expr) (env : Env)
  | TerminateV

/-- Interpreter state: variable cells (the mutable slots of the
environment frames), the pair heap, and the `display` output trace
(the values printed; text rendering is outside the embedded core). -/
structure St where
  cells : List Val
  pairs : List (Val × Val)
  out : List Val

/-- The empty interpreter state. -/
def St.empty : St := ⟨[], [], []⟩

/-- Result of one evaluation: either a value or a `RuntimeError`
message (the source has a single error class distinguished only by its
message text), together with the resulting state. -/
abbrev Res := Except String Val × St

/-- The `primitives` table.  Modelled from the spec: the table itself
is `extern` (not in `src/`); its entries follow §4.2/§4.4 and the
per-name dispatch/arity error messages of `List::parse`. -/
def primList : List (String × EType) :=
  [("+", .E_PLUS), ("-", .E_MINUS), ("*", .E_MUL), ("/", .E_DIV),
   ("modulo", .E_MODULO), ("expt", .E_EXPT),
   ("list", .E_LIST), ("list?", .E_LISTQ),
   ("<", .E_LT), ("<=", .E_LE), ("=", .E_EQ), (">=", .E_GE), (">", .E_GT),
   ("and", .E_AND), ("or", .E_OR), ("not", .E_NOT),
   ("cons", .E_CONS), ("car", .E_CAR), ("cdr", .E_CDR),
   ("set-car!", .E_SETCAR), ("set-cdr!", .E_SETCDR),
   ("boolean?", .E_BOOLQ), ("number?", .E_INTQ), ("null?", .E_NULLQ),
   ("pair?", .E_PAIRQ), ("procedure?", .E_PROCQ), ("symbol?", .E_SYMBOLQ),
   ("string?", .E_STRINGQ), ("eq?", .E_EQQ), ("display", .E_DISPLAY),
   ("void", .E_VOID), ("exit", .E_EXIT)]

/-- `primitives.count(op)` / `primitives[op]` as an association lookup. -/
def primitives (s : String) : Option EType :=
  (primList.find? (fun p => p.1 == s)).map (·.2)

/-- The `reserved_words` table.  Modelled from the spec (§4.2 rule 3 and
the keyword cases of `List::parse`). -/
def reservedList : List (String × EType) :=
  [("quote", .E_QUOTE), ("if", .E_IF), ("lambda", .E_LAMBDA),
   ("define", .E_DEFINE), ("begin", .E_BEGIN), ("cond", .E_COND),
   ("let", .E_LET), ("letrec", .E_LETREC), ("set!", .E_SET)]

/-- `reserved_words` lookup. -/
def reserved (s : String) : Option EType :=
  (reservedList.find? (fun p => p.1 == s)).map (·.2)

/-! ### Variable-name validation (`Var::eval`, evaluation.cpp 76-130) -/

/-- Rule 1 of `Var::eval`: the name is empty, or starts with a digit or
with `.` or `@`. -/
def startsBad (x : String) : Bool :=
  match x.toList with
  | [] => true
  | c :: _ => c.isDigit || c = '.' || c = '@'

/-- The forbidden characters of rule 2: `#`, apostrophe, double quote,
backtick. -/
def forbiddenChars : List Char := ['#', '\x27', '"', '\x60']

/-- Rule 2 of `Var::eval`, as scanned in order by the source loop:
returns the first forbidden character, which appears in the error
message. -/
def firstForbidden (x : String) : Option Char :=
  x.toList.find? (fun c => forbiddenChars.contains c)

/-- The state machine of the `isNumeric` lambda in `Var::eval`:
arguments are the remaining characters and the `has_digit` / `has_dot`
/ `has_exponent` flags. -/
def isNumericAux : List Char → Bool → Bool → Bool → Bool
  | [], hd, _, _ => hd
  | c :: rest, hd, hdot, hexp =>
    if c.isDigit then isNumericAux rest true hdot hexp
    else if c = '.' then
      if hdot || hexp then false else isNumericAux rest hd true hexp
    else if c = 'e' || c = 'E' then
      if hexp || !hd then false
      else
        match rest with
        | [] => false
        | c2 :: rest2 =>
          if c2.isDigit then isNumericAux rest2 hd hdot true
          else if c2 = '+' || c2 = '-' then
            match rest2 with
            | [] => false
            | c3 :: rest3 =>
              if c3.isDigit then isNumericAux rest3 hd hdot true else false
          else false
    else false

/-- Rule 3 of `Var::eval`: the name parses as a number literal
(optional sign, digits, at most one dot, optional exponent part). -/
def isNumericName (x : String) : Bool :=
  match x.toList with
  | [] => false
  | c :: rest =>
    if c = '+' || c = '-' then isNumericAux rest false false false
    else isNumericAux (c :: rest) false false false

/-! ### Environment and state operations

`find`/`extend`/`modify` are modelled from the spec (§4.1). -/

/-- `find(x, e)`: innermost-first lookup of the cell address bound to a
name; `none` models the null `Value` returned for an absent name. -/
def lookupEnv (x : String) (env : Env) : Option Nat :=
  (env.find? (fun p => p.1 == x)).map (·.2)

/-- Read a variable cell.  Addresses handed out by `extend` are always
in range; the default is dead. -/
def readCell (st : St) (a : Nat) : Val := st.cells.getD a .VoidV

/-- Overwrite a variable cell in place. -/
def setCell (st : St) (a : Nat) (v : Val) : St :=
  { st with cells := st.cells.set a v }

/-- `extend(x, v, env)`: allocate a fresh mutable cell holding `v` and
return the environment with the new innermost binding. -/
def extend (x : String) (v : Val) (env : Env) (st : St) : Env × St :=
  ((x, st.cells.length) :: env, { st with cells := st.cells ++ [v] })

/-- `modify(x, v, env)`: mutate the cell of the nearest binding of `x`.
The spec leaves an absent name undefined behaviour (callers check
existence first); that case is modelled as a no-op. -/
def modify (x : String) (v : Val) (env : Env) (st : St) : St :=
  match lookupEnv x env with
  | some a => setCell st a v
  | none => st

/-- Extend with several bindings left to right (the parameter-binding
loop of `Apply::eval` and the binding loops of `Let`/`Letrec`): later
names end up innermost, so duplicates shadow earlier ones. -/
def extendMany (xs : List (String × Val)) (env : Env) (st : St) : Env × St :=
  xs.foldl (fun (p : Env × St) b => extend b.1 b.2 p.1 p.2) (env, st)

/-- Allocate a fresh pair (`PairV(car, cdr)`) on the pair heap. -/
def allocPair (car cdr : Val) (st : St) : Val × St :=
  (.PairV st.pairs.length, { st with pairs := st.pairs ++ [(car, cdr)] })

/-! ### Primitive operator rules (the `evalRator` methods) -/

/-- `Plus::evalRator`. -/
def plusRator : Val → Val → Except String Val
  | .IntegerV x, .IntegerV y => .ok (.IntegerV (x + y))
  | .IntegerV i, .RationalV n d => .ok (.RationalV (i * d + n) d)
  | .RationalV n d, .IntegerV i => .ok (.RationalV (n + i * d) d)
  | .RationalV n1 d1, .RationalV n2 d2 =>
      .ok (.RationalV (n1 * d2 + n2 * d1) (d1 * d2))
  | _, _ => .error "Wrong typename: + requires numeric arguments (int/rational)"

/-- `Minus::evalRator`. -/
def minusRator : Val → Val → Except String Val
  | .IntegerV x, .IntegerV y => .ok (.IntegerV (x - y))
  | .IntegerV i, .RationalV n d => .ok (.RationalV (i * d - n) d)
  | .RationalV n d, .IntegerV i => .ok (.RationalV (n - i * d) d)
  | .RationalV n1 d1, .RationalV n2 d2 =>
      .ok (.RationalV (n1 * d2 - n2 * d1) (d1 * d2))
  | _, _ => .error "Wrong typename: - requires numeric arguments (int/rational)"

/-- `Mult::evalRator`. -/
def multRator : Val → Val → Except String Val
  | .IntegerV x, .IntegerV y => .ok (.IntegerV (x * y))
  | .IntegerV i, .RationalV n d => .ok (.RationalV (i * n) d)
  | .RationalV n d, .IntegerV i => .ok (.RationalV (n * i) d)
  | .RationalV n1 d1, .RationalV n2 d2 =>
      .ok (.RationalV (n1 * n2) (d1 * d2))
  | _, _ => .error "Wrong typename: * requires numeric arguments (int/rational)"

/-- The zero-divisor test that `Div::evalRator` performs before its
type dispatch (an `Integer` 0 or a `Rational` with numerator 0). -/
def divZero : Val → Bool
  | .IntegerV n => n == 0
  | .RationalV n _ => n == 0
  | _ => false

/-- `Div::evalRator`.  Integer division and remainder use C (truncated)
semantics, `Int.tdiv`/`Int.tmod`; the quotient branch only runs under
exact divisibility, where every convention agrees. -/
def divRator (v1 v2 : Val) : Except String Val :=
  if divZero v2 then .error "Division by zero"
  else
    match v1, v2 with
    | .IntegerV a, .IntegerV b =>
        if a.tmod b = 0 then .ok (.IntegerV (a.tdiv b)) else .ok (.RationalV a b)
    | .IntegerV a, .RationalV n d => .ok (.RationalV (a * d) n)
    | .RationalV n d, .IntegerV b => .ok (.RationalV n (d * b))
    | .RationalV n1 d1, .RationalV n2 d2 => .ok (.RationalV (n1 * d2) (d1 * n2))
    | _, _ => .error "Wrong typename: / requires numeric arguments (int/rational)"

/-- `Modulo::evalRator` (C `%` is truncated remainder). -/
def moduloRator : Val → Val → Except String Val
  | .IntegerV a, .IntegerV b =>
      if b = 0 then .error "Division by zero" else .ok (.IntegerV (a.tmod b))
  | _, _ => .error "modulo is only defined for integers"

/-- `INT_MAX` of the 32-bit target. -/
def intMax : Int := 2147483647

/-- `INT_MIN` of the 32-bit target. -/
def intMin : Int := -2147483648

/-- The squaring loop of `Expt::evalRator`.  The C++ `long long`
intermediates stay below `2^63` (any `b` outside `int` range is either
rejected or never multiplied again), so unbounded `Int` is exact. -/
def exptLoop (result b : Int) (exp : Nat) : Except String Int :=
  if exp = 0 then .ok result
  else
    let cont := fun (r : Int) =>
      let b2 := b * b
      if (b2 > intMax || b2 < intMin) && exp > 1 then
        .error "Integer overflow in expt"
      else exptLoop r b2 (exp / 2)
    if exp % 2 = 1 then
      let r := result * b
      if r > intMax || r < intMin then .error "Integer overflow in expt"
      else cont r
    else cont result
termination_by exp
decreasing_by all_goals omega

/-- `Expt::evalRator`. -/
def exptRator : Val → Val → Except String Val
  | .IntegerV base, .IntegerV exponent =>
      if exponent < 0 then .error "Negative exponent not supported for integers"
      else if base = 0 && exponent = 0 then .error "0^0 is undefined"
      else (exptLoop 1 base exponent.toNat).map .IntegerV
  | _, _ => .error "Wrong typename"

/-- Three-way comparison of two `Int`s, as in `compareNumericValues`. -/
def cmp3 (a b : Int) : Int := if a < b then -1 else if a > b then 1 else 0

/-- `compareNumericValues`: cross-multiplication comparison; `none`
models the non-numeric throw (unreachable from the comparison
operators, which pre-check the types). -/
def cmpNum : Val → Val → Option Int
  | .IntegerV a, .IntegerV b => some (cmp3 a b)
  | .RationalV n d, .IntegerV b => some (cmp3 n (b * d))
  | .IntegerV a, .RationalV n d => some (cmp3 (a * d) n)
  | .RationalV n1 d1, .RationalV n2 d2 => some (cmp3 (n1 * d2) (n2 * d1))
  | _, _ => none

/-- `Less::evalRator` (numeric guard, then `compareNumericValues`). -/
def lessRator (v1 v2 : Val) : Except String Val :=
  match cmpNum v1 v2 with
  | some c => .ok (.BooleanV (c == -1))
  | none => .error "Wrong typename"

/-- `LessEq::evalRator`. -/
def lessEqRator (v1 v2 : Val) : Except String Val :=
  match cmpNum v1 v2 with
  | some c => .ok (.BooleanV (c != 1))
  | none => .error "Wrong typename"

/-- `Equal::evalRator` (numeric `=`). -/
def equalRator (v1 v2 : Val) : Except String Val :=
  match cmpNum v1 v2 with
  | some c => .ok (.BooleanV (c == 0))
  | none => .error "Wrong typename"

/-- `GreaterEq::evalRator`. -/
def greaterEqRator (v1 v2 : Val) : Except String Val :=
  match cmpNum v1 v2 with
  | some c => .ok (.BooleanV (c != -1))
  | none => .error "Wrong typename"

/-- `Greater::evalRator`. -/
def greaterRator (v1 v2 : Val) : Except String Val :=
  match cmpNum v1 v2 with
  | some c => .ok (.BooleanV (c == 1))
  | none => .error "Wrong typename"

/-- `PlusVar::evalRator`: `(+) = 0`, otherwise a left fold of binary `+`. -/
def plusVarRator : List Val → Except String Val
  | [] => .ok (.IntegerV 0)
  | a :: rest => rest.foldlM plusRator a

/-- `MinusVar::evalRator`: no arguments is an error, one argument
negates via `0 - a`, otherwise a left fold of binary `-`. -/
def minusVarRator : List Val → Except String Val
  | [] => .error "minus requires at least 1 argument"
  | [a] => minusRator (.IntegerV 0) a
  | a :: rest => rest.foldlM minusRator a

/-- `MultVar::evalRator`. -/
def multVarRator : List Val → Except String Val
  | [] => .ok (.IntegerV 1)
  | a :: rest => rest.foldlM multRator a

/-- `DivVar::evalRator`: no arguments is an error, one argument takes
the reciprocal via `1 / a`, otherwise a left fold of binary `/`. -/
def divVarRator : List Val → Except String Val
  | [] => .error "division requires at least 1 argument"
  | [a] => divRator (.IntegerV 1) a
  | a :: rest => rest.foldlM divRator a

/-- The adjacent-pairs loop shared by the variadic comparison
operators: fewer than two arguments is vacuously true; the result of
the binary operator is always a `Boolean` when it does not throw, so
the final catch-all is dead. -/
def chainCmp (f : Val → Val → Except String Val) : List Val → Except String Val
  | a :: b :: rest => do
      let r ← f a b
      match r with
      | .BooleanV true => chainCmp f (b :: rest)
      | _ => .ok (.BooleanV false)
  | _ => .ok (.BooleanV true)

/-- `Cons::evalRator`: allocates a fresh mutable pair. -/
def consRator (v1 v2 : Val) (st : St) : Val × St := allocPair v1 v2 st

/-- `ListFunc::evalRator`: builds a proper list right to left. -/
def listFuncRator (args : List Val) (st : St) : Val × St :=
  args.foldr (fun v acc => allocPair v acc.1 acc.2) (.NullV, st)

/-- `Car::evalRator`. -/
def carRator (st : St) : Val → Except String Val
  | .PairV a => .ok (st.pairs.getD a (.NullV, .NullV)).1
  | _ => .error "Wrong typename"

/-- `Cdr::evalRator`. -/
def cdrRator (st : St) : Val → Except String Val
  | .PairV a => .ok (st.pairs.getD a (.NullV, .NullV)).2
  | _ => .error "Wrong typename"

/-- `SetCar::evalRator`: mutate the car field in place. -/
def setCarRator (v1 v2 : Val) (st : St) : Except String (Val × St) :=
  match v1 with
  | .PairV a =>
      .ok (.VoidV, { st with pairs := st.pairs.set a (v2, (st.pairs.getD a (.NullV, .NullV)).2) })
  | _ => .error "set-car!: first argument must be a pair"

/-- `SetCdr::evalRator`: mutate the cdr field in place. -/
def setCdrRator (v1 v2 : Val) (st : St) : Except String (Val × St) :=
  match v1 with
  | .PairV a =>
      .ok (.VoidV, { st with pairs := st.pairs.set a ((st.pairs.getD a (.NullV, .NullV)).1, v2) })
  | _ => .error "set-cdr!: first argument must be a pair"

/-- `IsEq::evalRator` (`eq?`): integers, booleans and symbols by value,
`Null`/`Void` by type, pairs by object identity.  The final fallback
compares object identity of other heap objects, which this model does
not track; it is rendered as `false` (fresh objects are distinct). -/
def eqRator : Val → Val → Val
  | .IntegerV a, .IntegerV b => .BooleanV (a == b)
  | .BooleanV a, .BooleanV b => .BooleanV (a == b)
  | .SymbolV a, .SymbolV b => .BooleanV (a == b)
  | .NullV, .NullV => .BooleanV true
  | .VoidV, .VoidV => .BooleanV true
  | .PairV a, .PairV b => .BooleanV (a == b)
  | _, _ => .BooleanV false

/-- `Not::evalRator`. -/
def notRator : Val → Val
  | .BooleanV b => .BooleanV (!b)
  | _ => .BooleanV false

/-- `IsBoolean::evalRator`. -/
def isBooleanRator : Val → Val
  | .BooleanV _ => .BooleanV true
  | _ => .BooleanV false

/-- `IsFixnum::evalRator` (`number?`). -/
def isFixnumRator : Val → Val
  | .IntegerV _ => .BooleanV true
  | _ => .BooleanV false

/-- `IsNull::evalRator`. -/
def isNullRator : Val → Val
  | .NullV => .BooleanV true
  | _ => .BooleanV false

/-- `IsPair::evalRator`. -/
def isPairRator : Val → Val
  | .PairV _ => .BooleanV true
  | _ => .BooleanV false

/-- `IsProcedure::evalRator`. -/
def isProcedureRator : Val → Val
  | .ProcedureV _ _ _ => .BooleanV true
  | _ => .BooleanV false

/-- `IsSymbol::evalRator`. -/
def isSymbolRator : Val → Val
  | .SymbolV _ => .BooleanV true
  | _ => .BooleanV false

/-- `IsString::evalRator`. -/
def isStringRator : Val → Val
  | .StringV _ => .BooleanV true
  | _ => .BooleanV false

/-! ### `IsList::evalRator` (`list?`), the slow/fast cycle walk -/

/-- Is the value a `Pair` (`v_type == V_PAIR`)? -/
def isPairV : Val → Bool
  | .PairV _ => true
  | _ => false

/-- Is the value `Null` (`v_type == V_NULL`)? -/
def isNullV : Val → Bool
  | .NullV => true
  | _ => false

/-- One step along the cdr chain of a pair heap; non-pairs are fixed
points.  (A dangling address cannot arise in the C++ heap; `getD`
makes the step total without affecting reachable behaviour.) -/
def nextV (h : List (Val × Val)) : Val → Val
  | .PairV a => (h.getD a (.NullV, .NullV)).2
  | v => v

/-- The value reached after `n` cdr steps. -/
def walk (h : List (Val × Val)) (n : Nat) (v : Val) : Val := (nextV h)^[n] v

/-- The `slow.get() == fast.get()` object-identity test.  It is only
consulted when `fast` is a pair; two pair values are the identical
object exactly when their heap addresses agree, and a pair is never
the same object as a non-pair. -/
def identV : Val → Val → Bool
  | .PairV a, .PairV b => a == b
  | _, _ => false

/-- The `while (fast->v_type == V_PAIR)` loop of `IsList::evalRator`,
with a fuel budget standing in for the unbounded C++ loop; `none`
means the budget ran out (shown below never to happen once the budget
reaches `(h.length + 2)^2`). -/
def isListLoop (h : List (Val × Val)) : Nat → Val → Val → Option Bool
  | 0, _, _ => none
  | fuel + 1, slow, fast =>
    if isPairV fast then
      if identV slow fast then some false
      else
        let slow1 := nextV h slow
        let fast1 := nextV h fast
        if isPairV fast1 then isListLoop h fuel slow1 (nextV h fast1)
        else some (isNullV fast1)
    else some (isNullV fast)

/-- `IsList::evalRator`: `Null` is a list, non-pairs are not, pairs are
decided by the slow/fast walk. -/
def isListRator (h : List (Val × Val)) (fuel : Nat) (v : Val) : Option Bool :=
  if isNullV v then some true
  else if !isPairV v then some false
  else isListLoop h fuel v (nextV h v)

/-- The fuel budget that the termination proof shows is always enough. -/
def listFuel (h : List (Val × Val)) : Nat := (h.length + 2) * (h.length + 2)

/-! ### `Quote::eval` (`syntaxToValue`) -/

/-- The dot-scanning loop of `Quote::eval` (step 7.1): records the
index of the first `.` symbol and throws on a second one. -/
def scanDots : List Stx → Nat → Option Nat → Except String (Option Nat)
  | [], _, acc => .ok acc
  | s :: rest, i, acc =>
    match s with
    | .symbolS t =>
        if t = "." then
          match acc with
          | some _ => .error "quote: invalid list (multiple dots are not allowed)"
          | none => scanDots rest (i + 1) (some i)
        else scanDots rest (i + 1) acc
    | _ => scanDots rest (i + 1) acc

/-- Quote a list of syntax elements from right to left onto a given
tail value, allocating one pair per element (the reverse-iteration
loops of steps 7.2.1 and 7.3); `qv` quotes one element. -/
def chainWith (qv : Stx → St → Option (Except String (Val × St))) :
    List Stx → Val → St → Option (Except String (Val × St))
  | [], acc, st => some (.ok (acc, st))
  | x :: rest, acc, st =>
    match chainWith qv rest acc st with
    | none => none
    | some (.error m) => some (.error m)
    | some (.ok (tailv, st1)) =>
      match qv x st1 with
      | none => none
      | some (.error m) => some (.error m)
      | some (.ok (v, st2)) => some (.ok (allocPair v tailv st2))

/-- Is this syntax element the `.` symbol? -/
def isDotStx : Stx → Bool
  | .symbolS t => t == "."
  | _ => false

/-- Is the last element of the list the `.` symbol (step 7.1.5)? -/
def lastIsDot (stxs : List Stx) : Bool :=
  match stxs.getLast? with
  | some s => isDotStx s
  | none => false

/-- `syntaxToValue` of `Quote::eval`, step-indexed on nesting depth.
Errors discard the partially allocated state (the thrown C++ exception
frees those pairs). -/
def quoteStx : Nat → Stx → St → Option (Except String (Val × St))
  | 0, _, _ => none
  | fuel + 1, stx, st =>
    match stx with
    | .symbolS s => some (.ok (.SymbolV s, st))
    | .numberS n => some (.ok (.IntegerV n, st))
    | .rationalS a b => some (.ok (.RationalV a b, st))
    | .trueS => some (.ok (.BooleanV true, st))
    | .falseS => some (.ok (.BooleanV false, st))
    | .stringS s => some (.ok (.StringV s, st))
    | .listS stxs =>
      match scanDots stxs 0 none with
      | .error m => some (.error m)
      | .ok dotPos =>
        match dotPos with
        | some p =>
          -- step 7.1.5: a single trailing dot
          if lastIsDot stxs then
            some (.error "quote: invalid dotted pair (multiple dots or trailing dot)")
          -- step 7.2: dotted validation and build
          else if p = 0 then
            some (.error "quote: invalid list (dot cannot be at the start)")
          else if p = stxs.length - 1 then
            some (.error "quote: invalid list (dot cannot be at the end)")
          else if stxs.length - p - 1 > 1 then
            some (.error "quote: invalid list (only one element allowed after dot)")
          else
            match quoteStx fuel (stxs.getD (p + 1) (.listS [])) st with
            | none => none
            | some (.error m) => some (.error m)
            | some (.ok (sufv, st1)) =>
                chainWith (quoteStx fuel) (stxs.take p) sufv st1
        | none =>
          -- step 7.3: proper list (the empty list yields Null)
          chainWith (quoteStx fuel) stxs .NullV st

/-! ### The evaluator

`eval` is step-indexed: the fuel drops by one at each recursion level
and `none` reports exhaustion.  The loops inside the `eval` methods are
factored into list-recursive helpers parameterized by the one-level
evaluator `ev`. -/

/-- The argument-collection loop of `Variadic::eval` / `Apply::eval`:
evaluate expressions left to right, threading the state. -/
def seqWith (ev : Expr → St → Option Res) :
    List Expr → St → Option (Except String (List Val) × St)
  | [], st => some (.ok [], st)
  | e :: es, st =>
    match ev e st with
    | none => none
    | some (.error m, st1) => some (.error m, st1)
    | some (.ok v, st1) =>
      match seqWith ev es st1 with
      | none => none
      | some (.error m, st2) => some (.error m, st2)
      | some (.ok vs, st2) => some (.ok (v :: vs), st2)

/-- The loop of `OrVar::eval`: stop with a fresh boolean true at the
first operand whose value is boolean true; any other value (including
non-boolean "truthy" values) does not stop the loop; exhaustion gives
boolean false. -/
def orWith (ev : Expr → St → Option Res) : List Expr → St → Option Res
  | [], st => some (.ok (.BooleanV false), st)
  | e :: es, st =>
    match ev e st with
    | none => none
    | some (.error m, st1) => some (.error m, st1)
    | some (.ok v, st1) =>
      match v with
      | .BooleanV true => some (.ok (.BooleanV true), st1)
      | _ => orWith ev es st1

/-- The loop of `AndVar::eval`: stop with boolean false at the first
operand whose value is boolean false; after the loop exhausts the
list, the source evaluates `rands.back()` a second time and returns
that result. -/
def andWith (ev : Expr → St → Option Res) : List Expr → St → Option Res
  | [], st => some (.ok (.BooleanV true), st)
  | e :: es, st =>
    match ev e st with
    | none => none
    | some (.error m, st1) => some (.error m, st1)
    | some (.ok v, st1) =>
      match v with
      | .BooleanV false => some (.ok (.BooleanV false), st1)
      | _ =>
        match es with
        | [] => ev e st1
        | _ :: _ => andWith ev es st1

/-- The sequence loop of `Begin::eval` (and of `cond` clause bodies):
all but the last result are discarded; an empty sequence is `Void`. -/
def bodyWith (ev : Expr → St → Option Res) : List Expr → St → Option Res
  | [], st => some (.ok .VoidV, st)
  | [e], st => ev e st
  | e :: es, st =>
    match ev e st with
    | none => none
    | some (.error m, st1) => some (.error m, st1)
    | some (.ok _, st1) => bodyWith ev es st1

/-- The clause loop of `Cond::eval`. -/
def condWith (ev : Expr → St → Option Res) : List (List Expr) → St → Option Res
  | [], st => some (.ok (.BooleanV false), st)
  | clause :: rest, st =>
    match clause with
    | [] => some (.error "cond: empty clause is invalid", st)
    | test :: body =>
      match ev test st with
      | none => none
      | some (.error m, st1) => some (.error m, st1)
      | some (.ok cv, st1) =>
        match cv with
        | .BooleanV false => condWith ev rest st1
        | _ =>
          match body with
          | [] => some (.ok cv, st1)
          | _ :: _ => bodyWith ev body st1

/-- The binding-evaluation loop of `Let::eval` (in the original
environment, collecting name/value pairs). -/
def bindsWith (ev : Expr → St → Option Res) :
    List (String × Expr) → St → Option (Except String (List (String × Val)) × St)
  | [], st => some (.ok [], st)
  | (x, ex) :: rest, st =>
    match ev ex st with
    | none => none
    | some (.error m, st1) => some (.error m, st1)
    | some (.ok v, st1) =>
      match bindsWith ev rest st1 with
      | none => none
      | some (.error m, st2) => some (.error m, st2)
      | some (.ok bvs, st2) => some (.ok ((x, v) :: bvs), st2)

/-- The second phase of `Letrec::eval`: evaluate each binding in the
letrec environment and overwrite its placeholder. -/
def recBindsWith (ev : Expr → St → Option Res) (env : Env) :
    List (String × Expr) → St → Option (Except String Unit × St)
  | [], st => some (.ok (), st)
  | (x, ex) :: rest, st =>
    match ev ex st with
    | none => none
    | some (.error m, st1) => some (.error m, st1)
    | some (.ok v, st1) => recBindsWith ev env rest (modify x v env st1)

/-- Evaluate one operand, then apply a (state-reading) unary rule. -/
def unaryWith (ev : Expr → St → Option Res)
    (f : St → Val → Except String Val) (r : Expr) (st : St) : Option Res :=
  match ev r st with
  | none => none
  | some (.error m, st1) => some (.error m, st1)
  | some (.ok v, st1) => some (f st1 v, st1)

/-- Evaluate two operands left to right, then apply a pure binary rule
(`Binary::eval`). -/
def binWith (ev : Expr → St → Option Res)
    (f : Val → Val → Except String Val) (r1 r2 : Expr) (st : St) : Option Res :=
  match ev r1 st with
  | none => none
  | some (.error m, st1) => some (.error m, st1)
  | some (.ok v1, st1) =>
    match ev r2 st1 with
    | none => none
    | some (.error m, st2) => some (.error m, st2)
    | some (.ok v2, st2) => some (f v1 v2, st2)

/-- Evaluate two operands, then apply a state-changing binary rule
(`cons`, `set-car!`, `set-cdr!`). -/
def binStWith (ev : Expr → St → Option Res)
    (f : Val → Val → St → Except String (Val × St)) (r1 r2 : Expr) (st : St) :
    Option Res :=
  match ev r1 st with
  | none => none
  | some (.error m, st1) => some (.error m, st1)
  | some (.ok v1, st1) =>
    match ev r2 st1 with
    | none => none
    | some (.error m, st2) => some (.error m, st2)
    | some (.ok v2, st2) =>
      match f v1 v2 st2 with
      | .ok (v, st3) => some (.ok v, st3)
      | .error m => some (.error m, st2)

/-- Evaluate all operands, then apply a pure variadic rule
(`Variadic::eval`). -/
def variadicWith (ev : Expr → St → Option Res)
    (f : List Val → Except String Val) (rands : List Expr) (st : St) : Option Res :=
  match seqWith ev rands st with
  | none => none
  | some (.error m, st1) => some (.error m, st1)
  | some (.ok vs, st1) => some (f vs, st1)

/-- The on-demand primitive closure table of `Var::eval`
(`primitive_map`, evaluation.cpp 135-153): the expression body and the
formal parameter names of the closure built for a bare primitive
reference.  Only these seventeen tags have entries. -/
def primitive_map : EType → Option (Expr × List String)
  | .E_VOID => some (.MakeVoid, [])
  | .E_EXIT => some (.Exit, [])
  | .E_BOOLQ => some (.IsBoolean (.Var "parm"), ["parm"])
  | .E_INTQ => some (.IsFixnum (.Var "parm"), ["parm"])
  | .E_NULLQ => some (.IsNull (.Var "parm"), ["parm"])
  | .E_PAIRQ => some (.IsPair (.Var "parm"), ["parm"])
  | .E_PROCQ => some (.IsProcedure (.Var "parm"), ["parm"])
  | .E_SYMBOLQ => some (.IsSymbol (.Var "parm"), ["parm"])
  | .E_STRINGQ => some (.IsString (.Var "parm"), ["parm"])
  | .E_DISPLAY => some (.Display (.Var "parm"), ["parm"])
  | .E_PLUS => some (.PlusVar [], [])
  | .E_MINUS => some (.MinusVar [], [])
  | .E_MUL => some (.MultVar [], [])
  | .E_DIV => some (.DivVar [], [])
  | .E_MODULO => some (.Modulo (.Var "parm1") (.Var "parm2"), ["parm1", "parm2"])
  | .E_EXPT => some (.Expt (.Var "parm1") (.Var "parm2"), ["parm1", "parm2"])
  | .E_EQQ => some (.EqualVar [], [])
  | _ => none

/-- The closure built for a bare primitive reference: `primitives`
lookup composed with `primitive_map`. -/
def primClosure (x : String) : Option (Expr × List String) :=
  match primitives x with
  | some ty => primitive_map ty
  | none => none

/-- The evaluator.  Fuel is consumed at each recursion level; `none`
means the fuel ran out, so any `some` result is the result of the
unbounded C++ recursion. -/
def eval : Nat → Expr → Env → St → Option Res
  | 0, _, _, _ => none
  | fuel + 1, e, env, st =>
    let ev := fun e' st' => eval fuel e' env st'
    match e with
    | .Fixnum n => some (.ok (.IntegerV n), st)
    | .RationalNum a b => some (.ok (.RationalV a b), st)
    | .StringExpr s => some (.ok (.StringV s), st)
    | .TrueE => some (.ok (.BooleanV true), st)
    | .FalseE => some (.ok (.BooleanV false), st)
    | .MakeVoid => some (.ok .VoidV, st)
    | .Exit => some (.ok .TerminateV, st)
    | .Var x =>
      -- `Var::eval`: name validation, then `find`, then the primitive
      -- closure fallback, then `UndefinedVariable`.
      if startsBad x then
        some (.error "Invalid variable name: starts with invalid character", st)
      else
        match firstForbidden x with
        | some c =>
          some (.error ("Invalid variable name: contains forbidden character \x27"
                          ++ String.singleton c ++ "\x27"), st)
        | none =>
          if isNumericName x then
            some (.error "Invalid variable name: numeric format is prioritized as literal", st)
          else
            match lookupEnv x env with
            | some a => some (.ok (readCell st a), st)
            | none =>
              match primClosure x with
              | some (ex, ps) => some (.ok (.ProcedureV ps ex env), st)
              | none => some (.error ("Undefined variable: \x27" ++ x ++ "\x27"), st)
    | .Apply rator rands =>
      match eval fuel rator env st with
      | none => none
      | some (.error m, st1) => some (.error m, st1)
      | some (.ok pv, st1) =>
        match pv with
        | .ProcedureV params body cenv =>
          match seqWith ev rands st1 with
          | none => none
          | some (.error m, st2) => some (.error m, st2)
          | some (.ok args, st2) =>
            if args.length ≠ params.length then
              some (.error ("Wrong number of arguments: expected "
                              ++ toString params.length ++ ", got "
                              ++ toString args.length), st2)
            else
              let es := extendMany (params.zip args) cenv st2
              eval fuel body es.1 es.2
        | _ => some (.error "Attempt to apply a non-procedure", st1)
    | .PlusVar rands => variadicWith ev plusVarRator rands st
    | .MinusVar rands => variadicWith ev minusVarRator rands st
    | .MultVar rands => variadicWith ev multVarRator rands st
    | .DivVar rands => variadicWith ev divVarRator rands st
    | .LessVar rands => variadicWith ev (chainCmp lessRator) rands st
    | .LessEqVar rands => variadicWith ev (chainCmp lessEqRator) rands st
    | .EqualVar rands => variadicWith ev (chainCmp equalRator) rands st
    | .GreaterEqVar rands => variadicWith ev (chainCmp greaterEqRator) rands st
    | .GreaterVar rands => variadicWith ev (chainCmp greaterRator) rands st
    | .ListFunc rands =>
      match seqWith ev rands st with
      | none => none
      | some (.error m, st1) => some (.error m, st1)
      | some (.ok vs, st1) =>
        let r := listFuncRator vs st1
        some (.ok r.1, r.2)
    | .AndVar rands =>
      match rands with
      | [] => some (.ok (.BooleanV true), st)
      | _ :: _ => andWith ev rands st
    | .OrVar rands =>
      match rands with
      | [] => some (.ok (.BooleanV false), st)
      | _ :: _ => orWith ev rands st
    | .Modulo r1 r2 => binWith ev moduloRator r1 r2 st
    | .Expt r1 r2 => binWith ev exptRator r1 r2 st
    | .NotE r => unaryWith ev (fun _ v => .ok (notRator v)) r st
    | .Cons r1 r2 => binStWith ev (fun a b s => .ok (consRator a b s)) r1 r2 st
    | .Car r => unaryWith ev carRator r st
    | .Cdr r => unaryWith ev cdrRator r st
    | .SetCar r1 r2 => binStWith ev setCarRator r1 r2 st
    | .SetCdr r1 r2 => binStWith ev setCdrRator r1 r2 st
    | .IsEq r1 r2 => binWith ev (fun a b => .ok (eqRator a b)) r1 r2 st
    | .IsBoolean r => unaryWith ev (fun _ v => .ok (isBooleanRator v)) r st
    | .IsFixnum r => unaryWith ev (fun _ v => .ok (isFixnumRator v)) r st
    | .IsNull r => unaryWith ev (fun _ v => .ok (isNullRator v)) r st
    | .IsPair r => unaryWith ev (fun _ v => .ok (isPairRator v)) r st
    | .IsProcedure r => unaryWith ev (fun _ v => .ok (isProcedureRator v)) r st
    | .IsSymbol r => unaryWith ev (fun _ v => .ok (isSymbolRator v)) r st
    | .IsString r => unaryWith ev (fun _ v => .ok (isStringRator v)) r st
    | .IsList r =>
      match ev r st with
      | none => none
      | some (.error m, st1) => some (.error m, st1)
      | some (.ok v, st1) =>
        match isListRator st1.pairs (listFuel st1.pairs) v with
        | some b => some (.ok (.BooleanV b), st1)
        | none => none
    | .Display r =>
      match ev r st with
      | none => none
      | some (.error m, st1) => some (.error m, st1)
      | some (.ok v, st1) => some (.ok .VoidV, { st1 with out := st1.out ++ [v] })
    | .Begin es => bodyWith ev es st
    | .Quote s =>
      match quoteStx fuel s st with
      | none => none
      | some (.error m) => some (.error m, st)
      | some (.ok (v, st1)) => some (.ok v, st1)
    | .If c conseq alter =>
      match ev c st with
      | none => none
      | some (.error m, st1) => some (.error m, st1)
      | some (.ok cv, st1) =>
        match cv with
        | .BooleanV false => ev alter st1
        | _ => ev conseq st1
    | .Cond clauses => condWith ev clauses st
    | .Lambda xs body => some (.ok (.ProcedureV xs body env), st)
    | .Define x ex =>
      if (primitives x).isSome || (reserved x).isSome then
        some (.error ("Define: cannot redefine primitive/reserved word \x27"
                        ++ x ++ "\x27"), st)
      else
        -- For an unbound name the source calls `extend` and discards the
        -- returned environment (the binding is lost); the `find` check and
        -- that discarded extension have no observable effect, and `modify`
        -- of a still-absent name is the spec's caller-contract violation,
        -- modelled as a no-op.
        match ev ex st with
        | none => none
        | some (.error m, st1) => some (.error m, st1)
        | some (.ok v, st1) => some (.ok .VoidV, modify x v env st1)
    | .Let binds body =>
      match bindsWith ev binds st with
      | none => none
      | some (.error m, st1) => some (.error m, st1)
      | some (.ok bvs, st1) =>
        let es := extendMany bvs env st1
        eval fuel body es.1 es.2
    | .Letrec binds body =>
      let es := extendMany (binds.map (fun b => (b.1, Val.VoidV))) env st
      match recBindsWith (fun e' st' => eval fuel e' es.1 st') es.1 binds es.2 with
      | none => none
      | some (.error m, st2) => some (.error m, st2)
      | some (.ok _, st2) => eval fuel body es.1 st2
    | .SetE x ex =>
      match lookupEnv x env with
      | none => some (.error ("set!: undefined variable \x27" ++ x ++ "\x27"), st)
      | some _ =>
        match ev ex st with
        | none => none
        | some (.error m, st1) => some (.error m, st1)
        | some (.ok v, st1) => some (.ok .VoidV, modify x v env st1)

/-! ### The analyzer (`parser.cpp`)

`parse` works on the same `Assoc` environment type; it only tests
membership (`find(op, env).get() != nullptr`), so the parse-time
`extend` calls of the lambda case bind a dummy cell address. -/

/-- Wrap multiple body expressions in a `Begin`
(`body_exprs.size() == 1 ? body_exprs[0] : Begin(body_exprs)`). -/
def mkBody : List Expr → Expr
  | [e] => e
  | es => .Begin es

/-- The parameter-list loop of the lambda case: every element must be
a symbol. -/
def lambdaParams : List Stx → Except String (List String)
  | [] => .ok []
  | .symbolS s :: rest => (lambdaParams rest).map (s :: ·)
  | _ => .error "lambda parameters must be symbols"

/-- The parameter-list loop of the define function shorthand. -/
def defineParams : List Stx → Except String (List String)
  | [] => .ok []
  | .symbolS s :: rest => (defineParams rest).map (s :: ·)
  | _ => .error "define function parameters must be symbols"

/-- The primitive-operator dispatch of `List::parse` (parser.cpp
105-272): given the operator tag and the already-parsed operand
expressions, build the operator node, validating fixed arities. -/
def primNode (op : String) (ty : EType) (parameters : List Expr) : Except String Expr :=
  match ty with
  | .E_PLUS => .ok (.PlusVar parameters)
  | .E_MINUS =>
      if parameters.isEmpty then .error "minus requires at least 1 argument"
      else .ok (.MinusVar parameters)
  | .E_MUL => .ok (.MultVar parameters)
  | .E_DIV =>
      if parameters.isEmpty then .error "division requires at least 1 argument"
      else .ok (.DivVar parameters)
  | .E_MODULO =>
      match parameters with
      | [a, b] => .ok (.Modulo a b)
      | _ => .error "Wrong number of arguments for modulo"
  | .E_EXPT =>
      match parameters with
      | [a, b] => .ok (.Expt a b)
      | _ => .error "Wrong number of arguments for expt"
  | .E_LIST => .ok (.ListFunc parameters)
  | .E_LT => .ok (.LessVar parameters)
  | .E_LE => .ok (.LessEqVar parameters)
  | .E_EQ => .ok (.EqualVar parameters)
  | .E_GE => .ok (.GreaterEqVar parameters)
  | .E_GT => .ok (.GreaterVar parameters)
  | .E_AND => .ok (.AndVar parameters)
  | .E_OR => .ok (.OrVar parameters)
  | .E_NOT =>
      match parameters with
      | [a] => .ok (.NotE a)
      | _ => .error "Wrong number of arguments for not"
  | .E_CONS =>
      match parameters with
      | [a, b] => .ok (.Cons a b)
      | _ => .error "Wrong number of arguments for cons"
  | .E_CAR =>
      match parameters with
      | [a] => .ok (.Car a)
      | _ => .error "Wrong number of arguments for car"
  | .E_CDR =>
      match parameters with
      | [a] => .ok (.Cdr a)
      | _ => .error "Wrong number of arguments for cdr"
  | .E_BOOLQ =>
      match parameters with
      | [a] => .ok (.IsBoolean a)
      | _ => .error "Wrong number of arguments for boolean?"
  | .E_INTQ =>
      match parameters with
      | [a] => .ok (.IsFixnum a)
      | _ => .error "Wrong number of arguments for number?"
  | .E_NULLQ =>
      match parameters with
      | [a] => .ok (.IsNull a)
      | _ => .error "Wrong number of arguments for null?"
  | .E_PAIRQ =>
      match parameters with
      | [a] => .ok (.IsPair a)
      | _ => .error "Wrong number of arguments for pair?"
  | .E_PROCQ =>
      match parameters with
      | [a] => .ok (.IsProcedure a)
      | _ => .error "Wrong number of arguments for procedure?"
  | .E_SYMBOLQ =>
      match parameters with
      | [a] => .ok (.IsSymbol a)
      | _ => .error "Wrong number of arguments for symbol?"
  | .E_STRINGQ =>
      match parameters with
      | [a] => .ok (.IsString a)
      | _ => .error "Wrong number of arguments for string?"
  | .E_EQQ =>
      match parameters with
      | [a, b] => .ok (.IsEq a b)
      | _ => .error "Wrong number of arguments for eq?"
  | .E_DISPLAY =>
      match parameters with
      | [a] => .ok (.Display a)
      | _ => .error "Wrong number of arguments for display"
  | .E_SETCAR =>
      match parameters with
      | [a, b] => .ok (.SetCar a b)
      | _ => .error "Wrong number of arguments for set-car!"
  | .E_SETCDR =>
      match parameters with
      | [a, b] => .ok (.SetCdr a b)
      | _ => .error "Wrong number of arguments for set-cdr!"
  | .E_VOID =>
      match parameters with
      | [] => .ok .MakeVoid
      | _ => .error "Wrong number of arguments for void"
  | .E_EXIT =>
      match parameters with
      | [] => .ok .Exit
      | _ => .error "Wrong number of arguments for exit"
  | _ => .error ("Unsupported primitive operation: " ++ op)

/-- Parse a sequence of syntax nodes left to right (operand lists and
body lists); `pv` parses one node. -/
def parseSeqWith (pv : Stx → Env → Option (Except String Expr)) :
    List Stx → Env → Option (Except String (List Expr))
  | [], _ => some (.ok [])
  | s :: rest, env =>
    match pv s env with
    | none => none
    | some (.error m) => some (.error m)
    | some (.ok e1) =>
      match parseSeqWith pv rest env with
      | none => none
      | some (.error m) => some (.error m)
      | some (.ok erest) => some (.ok (e1 :: erest))

/-- The clause loop of the `cond` case. -/
def parseClausesWith (pv : Stx → Env → Option (Except String Expr)) :
    List Stx → Env → Option (Except String (List (List Expr)))
  | [], _ => some (.ok [])
  | c :: rest, env =>
    match c with
    | .listS cstxs =>
      match parseSeqWith pv cstxs env with
      | none => none
      | some (.error m) => some (.error m)
      | some (.ok ces) =>
        match parseClausesWith pv rest env with
        | none => none
        | some (.error m) => some (.error m)
        | some (.ok crest) => some (.ok (ces :: crest))
    | _ => some (.error "cond clauses must be lists")

/-- The binding loop shared by `let` and `letrec` (`kw` selects the
error-message prefix). -/
def parseBindsWith (pv : Stx → Env → Option (Except String Expr)) :
    List Stx → Env → String → Option (Except String (List (String × Expr)))
  | [], _, _ => some (.ok [])
  | b :: rest, env, kw =>
    match b with
    | .listS [.symbolS v, ex] =>
      match pv ex env with
      | none => none
      | some (.error m) => some (.error m)
      | some (.ok e1) =>
        match parseBindsWith pv rest env kw with
        | none => none
        | some (.error m) => some (.error m)
        | some (.ok brest) => some (.ok ((v, e1) :: brest))
    | .listS [_, _] => some (.error (kw ++ " binding variable must be a symbol"))
    | _ => some (.error (kw ++ " binding must be a (var expr) pair"))

/-- The reserved-word cases of `List::parse` (`tl` holds the elements
after the keyword; `pv` parses one node). -/
def parseReservedWith (pv : Stx → Env → Option (Except String Expr)) :
    EType → String → List Stx → Env → Option (Except String Expr)
  | .E_QUOTE, _, tl, _ =>
    match tl with
    | [s1] => some (.ok (.Quote s1))
    | _ => some (.error "quote requires exactly 1 argument")
  | .E_IF, _, tl, env =>
    match tl with
    | [c, t] =>
      match pv c env with
      | none => none
      | some (.error m) => some (.error m)
      | some (.ok ce) =>
        match pv t env with
        | none => none
        | some (.error m) => some (.error m)
        | some (.ok te) => some (.ok (.If ce te .FalseE))
    | [c, t, a] =>
      match pv c env with
      | none => none
      | some (.error m) => some (.error m)
      | some (.ok ce) =>
        match pv t env with
        | none => none
        | some (.error m) => some (.error m)
        | some (.ok te) =>
          match pv a env with
          | none => none
          | some (.error m) => some (.error m)
          | some (.ok ae) => some (.ok (.If ce te ae))
    | _ => some (.error "if requires 2 or 3 arguments")
  | .E_LAMBDA, _, tl, env =>
    match tl with
    | paramsStx :: b1 :: brest =>
      match paramsStx with
      | .listS ps =>
        match lambdaParams ps with
        | .error m => some (.error m)
        | .ok params =>
          -- parameters are temporarily bound while the body is parsed
          -- (the bound value is irrelevant)
          let lenv := params.foldl (fun e p => (p, 0) :: e) env
          match parseSeqWith pv (b1 :: brest) lenv with
          | none => none
          | some (.error m) => some (.error m)
          | some (.ok bodies) => some (.ok (.Lambda params (mkBody bodies)))
      | _ => some (.error "lambda parameters must be a list")
    | _ => some (.error "lambda requires at least 2 arguments (parameters + body)")
  | .E_DEFINE, _, tl, env =>
    match tl with
    | target :: b1 :: brest =>
      match target with
      | .symbolS v =>
        match parseSeqWith pv (b1 :: brest) env with
        | none => none
        | some (.error m) => some (.error m)
        | some (.ok bodies) => some (.ok (.Define v (mkBody bodies)))
      | .listS shorthand =>
        match shorthand with
        | [] => some (.error "define function shorthand cannot be empty")
        | fn :: ps =>
          match fn with
          | .symbolS fname =>
            match defineParams ps with
            | .error m => some (.error m)
            | .ok params =>
              -- note: the body is parsed in the *original* environment,
              -- without the parameters bound
              match parseSeqWith pv (b1 :: brest) env with
              | none => none
              | some (.error m) => some (.error m)
              | some (.ok bodies) =>
                some (.ok (.Define fname (.Lambda params (mkBody bodies))))
          | _ => some (.error "define function name must be a symbol")
      | _ => some (.error "define: left-hand side must be a symbol or function shorthand")
    | _ => some (.error "define requires at least 2 arguments")
  | .E_BEGIN, _, tl, env =>
    match parseSeqWith pv tl env with
    | none => none
    | some (.error m) => some (.error m)
    | some (.ok es) => some (.ok (.Begin es))
  | .E_COND, _, tl, env =>
    match tl with
    | [] => some (.error "cond: at least one clause is required")
    | _ :: _ =>
      match parseClausesWith pv tl env with
      | none => none
      | some (.error m) => some (.error m)
      | some (.ok clauses) => some (.ok (.Cond clauses))
  | .E_LET, _, tl, env =>
    match tl with
    | bindsStx :: b1 :: brest =>
      match bindsStx with
      | .listS bss =>
        match parseBindsWith pv bss env "let" with
        | none => none
        | some (.error m) => some (.error m)
        | some (.ok binds) =>
          match parseSeqWith pv (b1 :: brest) env with
          | none => none
          | some (.error m) => some (.error m)
          | some (.ok bodies) => some (.ok (.Let binds (mkBody bodies)))
      | _ => some (.error "let bindings must be a list")
    | _ => some (.error "let requires at least 2 arguments (bindings + body)")
  | .E_LETREC, _, tl, env =>
    match tl with
    | bindsStx :: b1 :: brest =>
      match bindsStx with
      | .listS bss =>
        match parseBindsWith pv bss env "letrec" with
        | none => none
        | some (.error m) => some (.error m)
        | some (.ok binds) =>
          match parseSeqWith pv (b1 :: brest) env with
          | none => none
          | some (.error m) => some (.error m)
          | some (.ok bodies) => some (.ok (.Letrec binds (mkBody bodies)))
      | _ => some (.error "letrec bindings must be a list")
    | _ => some (.error "letrec requires at least 2 arguments (bindings + body)")
  | .E_SET, _, tl, env =>
    match tl with
    | [vs, ex] =>
      match vs with
      | .symbolS v =>
        match pv ex env with
        | none => none
        | some (.error m) => some (.error m)
        | some (.ok e1) => some (.ok (.SetE v e1))
      | _ => some (.error "set! variable must be a symbol")
    | _ => some (.error "set! requires exactly 2 arguments (var + expr)")
  | _, op, _, _ => some (.error ("Unknown reserved word: " ++ op))

/-- `Syntax::parse` dispatch together with `List::parse`.  Like `eval`,
the analyzer is step-indexed on nesting depth: `none` reports exhausted
fuel, so a `some` result is the result of the C++ recursion. -/
def parseStx : Nat → Stx → Env → Option (Except String Expr)
  | 0, _, _ => none
  | fuel + 1, stx, env =>
    let pv := fun s' (e' : Env) => parseStx fuel s' e'
    match stx with
    | .numberS n => some (.ok (.Fixnum n))
    | .rationalS a b => some (.ok (.RationalNum a b))
    | .symbolS s => some (.ok (.Var s))
    | .stringS s => some (.ok (.StringExpr s))
    | .trueS => some (.ok .TrueE)
    | .falseS => some (.ok .FalseE)
    | .listS stxs =>
      match stxs with
      | [] => some (.ok (.Quote (.listS [])))
      | hd :: tl =>
        match hd with
        | .symbolS op =>
          -- rule 1: a locally bound name is an application, before the
          -- primitive and keyword tables
          if (lookupEnv op env).isSome then
            match parseSeqWith pv tl env with
            | none => none
            | some (.error m) => some (.error m)
            | some (.ok rands) => some (.ok (.Apply (.Var op) rands))
          else
            match primitives op with
            | some ty =>
              match parseSeqWith pv tl env with
              | none => none
              | some (.error m) => some (.error m)
              | some (.ok parameters) => some (primNode op ty parameters)
            | none =>
              match reserved op with
              | some ty => parseReservedWith pv ty op tl env
              | none =>
                match parseSeqWith pv tl env with
                | none => none
                | some (.error m) => some (.error m)
                | some (.ok rands) => some (.ok (.Apply (.Var op) rands))
        | _ =>
          -- a list whose head is not a symbol is always an application
          match parseStx fuel hd env with
          | none => none
          | some (.error m) => some (.error m)
          | some (.ok rator) =>
            match parseSeqWith pv tl env with
            | none => none
            | some (.error m) => some (.error m)
            | some (.ok rands) => some (.ok (.Apply rator rands))

/-! ### Auxiliary notions used by the theorem statements -/

/-- Is the value numeric (an `Integer` or a `Rational`)? -/
def isNumV : Val → Bool
  | .IntegerV _ => true
  | .RationalV _ _ => true
  | _ => false

/-- The primitive names that `Var::eval`'s internal `primitive_map`
actually covers: referencing one of these as a bare variable yields a
closure; every other primitive name falls through to
`UndefinedVariable`. -/
def coveredPrimitives : List String :=
  ["void", "exit", "boolean?", "number?", "null?", "pair?", "procedure?",
   "symbol?", "string?", "display", "+", "-", "*", "/", "modulo", "expt", "eq?"]

/-- Count the `.` symbols among the elements of a quoted list. -/
def countDots (es : List Stx) : Nat :=
  es.countP (fun s => isDotStx s)

/-- The pair-heap segment that quoting a dotted list
`(n1 … nk . <acc>)` of integer literals appends, when the heap already
holds `L` pairs.  Built from the claim's words: the elements before the
dot form the proper-list prefix and `acc` becomes the final cdr — the
last element's pair is allocated first at address `L`, and each earlier
element points at the pair after it. -/
def quoteChainHeap : List Int → Val → Nat → List (Val × Val)
  | [], _, _ => []
  | [n], acc, _ => [(.IntegerV n, acc)]
  | n :: b :: rest, acc, L =>
      quoteChainHeap (b :: rest) acc L ++ [(.IntegerV n, .PairV (L + (b :: rest).length - 1))]

/-! ## Claims

Each claim of the specification is settled by one theorem below.  A
theorem with hypotheses is accompanied by a witness instantiating it at
a concrete input. -/

/-- C10: evaluating `(set! x e)` with `x` unbound anywhere in the
environment chain fails with the `UndefinedVariable` error *without
evaluating `e`*: the result does not depend on `e`, and the state
(variable cells, pair heap, display output) is returned unchanged.
`Set::eval` performs the `find` existence check strictly before
evaluating the value expression. -/
theorem set_unbound_fails_before_eval (fuel : Nat) (x : String) (e : Expr)
    (env : Env) (st : St) (h : lookupEnv x env = none) :
    eval (fuel + 1) (.SetE x e) env st
      = some (.error ("set!: undefined variable \x27" ++ x ++ "\x27"), st) := by
  simp [eval, h]

/-- C10 witness: `(set! y (display 5))` with `y` unbound fails at once,
with the display side effect never happening. -/
theorem set_unbound_fails_before_eval_witness :
    eval 1 (.SetE "y" (.Display (.Fixnum 5))) [] St.empty
      = some (.error "set!: undefined variable \x27y\x27", St.empty) :=
  set_unbound_fails_before_eval 0 "y" (.Display (.Fixnum 5)) [] St.empty rfl

/-- C9 counterexample: the claim says an invalidly named variable
reference fails at analysis time, but analyzing the bare symbol `1x`
(and `.5`, and `a#b`) succeeds, producing a `Var` node with no error;
the `InvalidIdentifier` error is raised only when that node is
evaluated. -/
theorem invalid_name_analysis_counterexample :
    parseStx 1 (.symbolS "1x") [] = some (.ok (.Var "1x"))
    ∧ parseStx 1 (.symbolS ".5") [] = some (.ok (.Var ".5"))
    ∧ parseStx 1 (.symbolS "a#b") [] = some (.ok (.Var "a#b"))
    ∧ eval 1 (.Var "1x") [] St.empty
        = some (.error "Invalid variable name: starts with invalid character", St.empty) :=
  ⟨rfl, rfl, rfl, rfl⟩

/-- C9 amended: the analyzer turns every symbol into a `Var` node with
no validation at all; the name checks of the claim (leading digit or
`.`/`@`, forbidden characters `#` `'` `"` `` ` ``, numeric-literal
shape) are performed at evaluation time, by `Var::eval`, which then
fails with the `InvalidIdentifier` error before any lookup. -/
theorem invalid_name_checked_at_eval (fuel : Nat) (s : String) (env : Env) (st : St) :
    parseStx (fuel + 1) (.symbolS s) env = some (.ok (.Var s))
    ∧ (startsBad s = true →
        eval (fuel + 1) (.Var s) env st
          = some (.error "Invalid variable name: starts with invalid character", st))
    ∧ (∀ c, startsBad s = false → firstForbidden s = some c →
        eval (fuel + 1) (.Var s) env st
          = some (.error ("Invalid variable name: contains forbidden character \x27"
              ++ String.singleton c ++ "\x27"), st))
    ∧ (startsBad s = false → firstForbidden s = none → isNumericName s = true →
        eval (fuel + 1) (.Var s) env st
          = some (.error "Invalid variable name: numeric format is prioritized as literal", st)) := by
  refine ⟨rfl, fun h1 => ?_, fun c h1 h2 => ?_, fun h1 h2 h3 => ?_⟩
  · simp [eval, h1]
  · simp [eval, h1, h2]
  · simp [eval, h1, h2, h3]

/-- C9 witness: the numeric-literal-shaped name `1e-3` and the
forbidden-character name `a#b` fail at evaluation time. -/
theorem invalid_name_checked_at_eval_witness :
    eval 1 (.Var "a#b") [] St.empty
      = some (.error "Invalid variable name: contains forbidden character \x27#\x27", St.empty) :=
  (invalid_name_checked_at_eval 0 "a#b" [] St.empty).2.2.1 '#' rfl rfl

/-- C5 counterexample: the claim says analyzing `(-)` and `(/)` with
zero operands succeeds, but the analyzer rejects both with an arity
error (while `(+)` and `(*)` are accepted). -/
theorem zero_operand_minus_div_counterexample :
    parseStx 2 (.listS [.symbolS "-"]) [] = some (.error "minus requires at least 1 argument")
    ∧ parseStx 2 (.listS [.symbolS "/"]) [] = some (.error "division requires at least 1 argument") :=
  ⟨rfl, rfl⟩

/-- C5 amended: among the variadic arithmetic primitives, `+` and `*`
accept zero or more operand expressions at analysis, but `-` and `/`
require at least one: the analyzer rejects `(-)` and `(/)` with an
arity error, and accepts any non-empty operand list for all four. -/
theorem variadic_arith_zero_operand_arity (fuel : Nat) (env : Env) :
    (∀ tl es, lookupEnv "+" env = none →
      parseSeqWith (fun s' e' => parseStx fuel s' e') tl env = some (.ok es) →
      parseStx (fuel + 1) (.listS (.symbolS "+" :: tl)) env = some (.ok (.PlusVar es)))
    ∧ (∀ tl es, lookupEnv "*" env = none →
      parseSeqWith (fun s' e' => parseStx fuel s' e') tl env = some (.ok es) →
      parseStx (fuel + 1) (.listS (.symbolS "*" :: tl)) env = some (.ok (.MultVar es)))
    ∧ (lookupEnv "-" env = none →
      parseStx (fuel + 1) (.listS [.symbolS "-"]) env
        = some (.error "minus requires at least 1 argument"))
    ∧ (lookupEnv "/" env = none →
      parseStx (fuel + 1) (.listS [.symbolS "/"]) env
        = some (.error "division requires at least 1 argument"))
    ∧ (∀ t tl e es, lookupEnv "-" env = none →
      parseSeqWith (fun s' e' => parseStx fuel s' e') (t :: tl) env = some (.ok (e :: es)) →
      parseStx (fuel + 1) (.listS (.symbolS "-" :: t :: tl)) env
        = some (.ok (.MinusVar (e :: es))))
    ∧ (∀ t tl e es, lookupEnv "/" env = none →
      parseSeqWith (fun s' e' => parseStx fuel s' e') (t :: tl) env = some (.ok (e :: es)) →
      parseStx (fuel + 1) (.listS (.symbolS "/" :: t :: tl)) env
        = some (.ok (.DivVar (e :: es)))) := by
  refine ⟨fun tl es h hs => ?_, fun tl es h hs => ?_, fun h => ?_, fun h => ?_,
    fun t tl e es h hs => ?_, fun t tl e es h hs => ?_⟩
  · simp [parseStx, h, hs, primNode, primitives, primList]
  · simp [parseStx, h, hs, primNode, primitives, primList]
  · simp [parseStx, h, primNode, primitives, primList, parseSeqWith]
  · simp [parseStx, h, primNode, primitives, primList, parseSeqWith]
  · simp only [parseStx, primitives, primList]
    simp only [h]
    simp [hs, primNode]
  · simp only [parseStx, primitives, primList]
    simp only [h]
    simp [hs, primNode]

/-- C5 witness: `(- 1)` is accepted with one operand, `(-)` is
rejected. -/
theorem variadic_arith_zero_operand_arity_witness :
    parseStx 2 (.listS [.symbolS "-", .numberS 1]) [] = some (.ok (.MinusVar [.Fixnum 1]))
    ∧ parseStx 2 (.listS [.symbolS "/"]) [] = some (.error "division requires at least 1 argument") :=
  ⟨(variadic_arith_zero_operand_arity 1 []).2.2.2.2.1 (.numberS 1) [] (.Fixnum 1) [] rfl rfl,
   (variadic_arith_zero_operand_arity 1 []).2.2.2.1 rfl⟩

/-- C3 counterexample: the claim says a function-shorthand define
analyzes its body with the parameters bound, exactly as an explicit
lambda does; but `(define (f begin) (begin))` analyzes the body
`(begin)` as the `Begin` special form, while
`(lambda (begin) (begin))` analyzes the same body as an application of
the parameter `begin` — the two produce different nodes. -/
theorem define_shorthand_body_counterexample :
    parseStx 9 (.listS [.symbolS "define", .listS [.symbolS "f", .symbolS "begin"],
        .listS [.symbolS "begin"]]) []
      = some (.ok (.Define "f" (.Lambda ["begin"] (.Begin []))))
    ∧ parseStx 9 (.listS [.symbolS "lambda", .listS [.symbolS "begin"],
        .listS [.symbolS "begin"]]) []
      = some (.ok (.Lambda ["begin"] (.Apply (.Var "begin") [])))
    ∧ Expr.Begin [] ≠ Expr.Apply (.Var "begin") [] :=
  ⟨rfl, rfl, fun h => Expr.noConfusion h⟩

/-- Helper: a list of plain symbols passes the define-shorthand
parameter check. -/
theorem defineParams_map_symbolS (params : List String) :
    defineParams (params.map .symbolS) = .ok params := by
  induction params with
  | nil => rfl
  | cons p rest ih => simp [defineParams, ih, Except.map]

/-- Helper: a list of plain symbols passes the lambda parameter
check. -/
theorem lambdaParams_map_symbolS (params : List String) :
    lambdaParams (params.map .symbolS) = .ok params := by
  induction params with
  | nil => rfl
  | cons p rest ih => simp [lambdaParams, ih, Except.map]

/-- C3 amended: `(define (f a b ...) body)` does desugar to
`(define f (lambda (a b ...) body))`, but the body is analyzed in the
*original* environment, without the parameters bound — so a body
occurrence of a parameter named like a keyword or primitive resolves
to the keyword/primitive, unlike the body of an explicit
`(lambda (a b ...) body)`, which is analyzed with the parameters
bound. -/
theorem define_shorthand_body_env (fuel : Nat) (env : Env) (f : String)
    (params : List String) (b : Stx) :
    (lookupEnv "define" env = none →
      parseStx (fuel + 1)
          (.listS [.symbolS "define", .listS (.symbolS f :: params.map .symbolS), b]) env
        = match parseStx fuel b env with
          | none => none
          | some (.error m) => some (.error m)
          | some (.ok be) => some (.ok (.Define f (.Lambda params be))))
    ∧ (lookupEnv "lambda" env = none →
      parseStx (fuel + 1) (.listS [.symbolS "lambda", .listS (params.map .symbolS), b]) env
        = match parseStx fuel b (params.foldl (fun e p => (p, 0) :: e) env) with
          | none => none
          | some (.error m) => some (.error m)
          | some (.ok be) => some (.ok (.Lambda params be))) := by
  constructor
  · intro h
    simp only [parseStx, h, primitives, primList, reserved, reservedList]
    simp [parseReservedWith, defineParams_map_symbolS, parseSeqWith]
    rcases parseStx fuel b env with _ | e1
    · rfl
    · rcases e1 with m | be <;> simp [mkBody]
  · intro h
    simp only [parseStx, h, primitives, primList, reserved, reservedList]
    simp [parseReservedWith, lambdaParams_map_symbolS, parseSeqWith]
    rcases parseStx fuel b (params.foldl (fun e p => (p, 0) :: e) env) with _ | e1
    · rfl
    · rcases e1 with m | be <;> simp [mkBody]

/-- C3 witness: `(define (g x) x)` desugars with the body analyzed in
the empty environment. -/
theorem define_shorthand_body_env_witness :
    parseStx 3 (.listS [.symbolS "define", .listS [.symbolS "g", .symbolS "x"],
        .symbolS "x"]) []
      = some (.ok (.Define "g" (.Lambda ["x"] (.Var "x")))) := by
  have h := (define_shorthand_body_env 2 [] "g" ["x"] (.symbolS "x")).1 rfl
  simpa using h

/-- Helper: the `or` loop skips an operand whose value is anything but
boolean true. -/
theorem orWith_skip (ev : Expr → St → Option Res) (r : Expr) (rest : List Expr)
    (st : St) (v : Val) (st1 : St) (hev : ev r st = some (.ok v, st1))
    (hv : v ≠ .BooleanV true) :
    orWith ev (r :: rest) st = orWith ev rest st1 := by
  rw [orWith, hev]
  cases v <;> try rfl
  rename_i b
  cases b
  · rfl
  · exact absurd rfl hv

/-- Helper: the `or` loop returns a fresh boolean true at an operand
whose value is boolean true. -/
theorem orWith_hit (ev : Expr → St → Option Res) (r : Expr) (rest : List Expr)
    (st st1 : St) (hev : ev r st = some (.ok (.BooleanV true), st1)) :
    orWith ev (r :: rest) st = some (.ok (.BooleanV true), st1) := by
  rw [orWith, hev]

/-- Helper: when every operand evaluates successfully to a non-true
value, the `or` loop exhausts the list and returns boolean false, in
the state after all the evaluations. -/
theorem orWith_exhausted (ev : Expr → St → Option Res) (rs : List Expr) :
    ∀ (st st' : St) (vs : List Val),
      seqWith ev rs st = some (.ok vs, st') →
      (∀ v ∈ vs, v ≠ .BooleanV true) →
      orWith ev rs st = some (.ok (.BooleanV false), st') := by
  induction rs with
  | nil =>
    intro st st' vs hs hv
    simp only [seqWith, Option.some.injEq, Prod.mk.injEq, Except.ok.injEq] at hs
    obtain ⟨rfl, rfl⟩ := hs
    simp [orWith]
  | cons r rest ih =>
    intro st st' vs hs hv
    simp only [seqWith] at hs
    cases hev : ev r st with
    | none => rw [hev] at hs; simp at hs
    | some p =>
      obtain ⟨res1, st1⟩ := p
      cases res1 with
      | error m => rw [hev] at hs; simp at hs
      | ok v =>
        rw [hev] at hs
        dsimp only at hs
        cases hseq : seqWith ev rest st1 with
        | none => rw [hseq] at hs; simp at hs
        | some q =>
          obtain ⟨res2, st2⟩ := q
          cases res2 with
          | error m => rw [hseq] at hs; simp at hs
          | ok vs1 =>
            rw [hseq] at hs
            simp only [Option.some.injEq, Prod.mk.injEq, Except.ok.injEq] at hs
            obtain ⟨rfl, rfl⟩ := hs
            rw [orWith_skip ev r rest st v st1 hev (hv v (by simp))]
            exact ih st1 _ vs1 hseq (fun u hu => hv u (by simp [hu]))

/-- Helper: the `or` loop stops with boolean true at the first operand
whose value is boolean true, after evaluating exactly the operands up
to and including it. -/
theorem orWith_found (ev : Expr → St → Option Res) (pre : List Expr) :
    ∀ (r : Expr) (post : List Expr) (st st1 st2 : St) (vs : List Val),
      seqWith ev pre st = some (.ok vs, st1) →
      (∀ v ∈ vs, v ≠ .BooleanV true) →
      ev r st1 = some (.ok (.BooleanV true), st2) →
      orWith ev (pre ++ r :: post) st = some (.ok (.BooleanV true), st2) := by
  induction pre with
  | nil =>
    intro r post st st1 st2 vs hs hv hr
    simp only [seqWith, Option.some.injEq, Prod.mk.injEq, Except.ok.injEq] at hs
    obtain ⟨rfl, rfl⟩ := hs
    rw [List.nil_append]
    exact orWith_hit ev r post st st2 hr
  | cons p pre' ih =>
    intro r post st st1 st2 vs hs hv hr
    simp only [seqWith] at hs
    cases hev : ev p st with
    | none => rw [hev] at hs; simp at hs
    | some q =>
      obtain ⟨res1, stm⟩ := q
      cases res1 with
      | error m => rw [hev] at hs; simp at hs
      | ok v =>
        rw [hev] at hs
        dsimp only at hs
        cases hseq : seqWith ev pre' stm with
        | none => rw [hseq] at hs; simp at hs
        | some q2 =>
          obtain ⟨res2, st2'⟩ := q2
          cases res2 with
          | error m => rw [hseq] at hs; simp at hs
          | ok vs1 =>
            rw [hseq] at hs
            simp only [Option.some.injEq, Prod.mk.injEq, Except.ok.injEq] at hs
            obtain ⟨rfl, rfl⟩ := hs
            rw [List.cons_append,
              orWith_skip ev p (pre' ++ r :: post) st v stm hev (hv v (by simp))]
            exact ih r post stm _ st2 vs1 hseq (fun u hu => hv u (by simp [hu])) hr

/-- C1 counterexample: the claim says a non-false operand value (such
as the integer 5) triggers the short circuit and that `(or 5)` returns
boolean true; but `OrVar::eval` only stops at a value that is boolean
*true*, so `(or 5)` evaluates to boolean false. -/
theorem or_on_integer_counterexample :
    eval 2 (.OrVar [.Fixnum 5]) [] St.empty = some (.ok (.BooleanV false), St.empty)
    ∧ eval 2 (.OrVar [.Fixnum 5]) [] St.empty ≠ some (.ok (.BooleanV true), St.empty) := by
  refine ⟨rfl, ?_⟩
  rw [show eval 2 (.OrVar [.Fixnum 5]) [] St.empty
        = some (.ok (.BooleanV false), St.empty) from rfl]
  simp

/-- C1 amended: `or` with zero operands is boolean false; otherwise
the operands are evaluated left to right and the loop stops — with a
freshly constructed boolean true — at the first operand whose value is
*boolean true*; an operand with any other value (a non-false integer,
pair, string, etc. included) does not stop the loop, and if no operand
yields boolean true the result is boolean false after every operand
has been evaluated once (so `(or 5)` is boolean false). -/
theorem orVar_eval_spec (fuel : Nat) (env : Env) (st : St) :
    (∀ rands vs st',
      seqWith (fun e' s' => eval fuel e' env s') rands st = some (.ok vs, st') →
      (∀ v ∈ vs, v ≠ Val.BooleanV true) →
      eval (fuel + 1) (.OrVar rands) env st = some (.ok (.BooleanV false), st'))
    ∧ (∀ pre r post vs st1 st2,
      seqWith (fun e' s' => eval fuel e' env s') pre st = some (.ok vs, st1) →
      (∀ v ∈ vs, v ≠ Val.BooleanV true) →
      eval fuel r env st1 = some (.ok (.BooleanV true), st2) →
      eval (fuel + 1) (.OrVar (pre ++ r :: post)) env st
        = some (.ok (.BooleanV true), st2)) := by
  constructor
  · intro rands vs st' hs hv
    cases rands with
    | nil =>
      simp only [seqWith, Option.some.injEq, Prod.mk.injEq, Except.ok.injEq] at hs
      obtain ⟨rfl, rfl⟩ := hs
      rfl
    | cons r rest =>
      show orWith (fun e' s' => eval fuel e' env s') (r :: rest) st = _
      exact orWith_exhausted _ (r :: rest) st st' vs hs hv
  · intro pre r post vs st1 st2 hs hv hr
    obtain ⟨a, rest, hpre⟩ : ∃ a rest, pre ++ r :: post = a :: rest := by
      cases pre with
      | nil => exact ⟨r, post, rfl⟩
      | cons a pre' => exact ⟨a, pre' ++ r :: post, rfl⟩
    have hor := orWith_found (fun e' s' => eval fuel e' env s') pre r post st st1 st2 vs hs hv hr
    calc eval (fuel + 1) (.OrVar (pre ++ r :: post)) env st
        = orWith (fun e' s' => eval fuel e' env s') (pre ++ r :: post) st := by
          rw [hpre]; rfl
      _ = some (.ok (.BooleanV true), st2) := hor

/-- C1 witness: `(or #f #t 7)` stops at the boolean true. -/
theorem orVar_eval_spec_witness :
    eval 2 (.OrVar [.FalseE, .TrueE, .Fixnum 7]) [] St.empty
      = some (.ok (.BooleanV true), St.empty) :=
  (orVar_eval_spec 1 [] St.empty).2 [.FalseE] .TrueE [.Fixnum 7] [.BooleanV false]
    St.empty St.empty rfl (by simp) rfl

/-- Helper: the `and` loop stops with boolean false at an operand
whose value is boolean false. -/
theorem andWith_stop (ev : Expr → St → Option Res) (r : Expr) (rest : List Expr)
    (st st1 : St) (hev : ev r st = some (.ok (.BooleanV false), st1)) :
    andWith ev (r :: rest) st = some (.ok (.BooleanV false), st1) := by
  rw [andWith, hev]

/-- Helper: the `and` loop continues past a non-last operand whose
value is not boolean false. -/
theorem andWith_skip (ev : Expr → St → Option Res) (r : Expr) (rest : List Expr)
    (st : St) (v : Val) (st1 : St) (hev : ev r st = some (.ok v, st1))
    (hv : v ≠ .BooleanV false) (hne : rest ≠ []) :
    andWith ev (r :: rest) st = andWith ev rest st1 := by
  obtain ⟨b, rest', rfl⟩ := List.exists_cons_of_ne_nil hne
  rw [andWith, hev]
  cases v <;> try rfl
  rename_i bb
  cases bb
  · exact absurd rfl hv
  · rfl

/-- Helper: when the loop reaches the last operand and its value is
not boolean false, `AndVar::eval` evaluates that operand a *second*
time (from the state the first evaluation produced) and returns that
second result. -/
theorem andWith_last (ev : Expr → St → Option Res) (r : Expr) (st : St)
    (v : Val) (st1 : St) (hev : ev r st = some (.ok v, st1))
    (hv : v ≠ .BooleanV false) :
    andWith ev [r] st = ev r st1 := by
  rw [andWith, hev]
  cases v <;> try rfl
  rename_i bb
  cases bb
  · exact absurd rfl hv
  · rfl

/-- Helper: the `and` loop stops with boolean false at the first
operand whose value is boolean false, after evaluating exactly the
operands up to and including it. -/
theorem andWith_first_false (ev : Expr → St → Option Res) (pre : List Expr) :
    ∀ (r : Expr) (post : List Expr) (st st1 st2 : St) (vs : List Val),
      seqWith ev pre st = some (.ok vs, st1) →
      (∀ v ∈ vs, v ≠ .BooleanV false) →
      ev r st1 = some (.ok (.BooleanV false), st2) →
      andWith ev (pre ++ r :: post) st = some (.ok (.BooleanV false), st2) := by
  induction pre with
  | nil =>
    intro r post st st1 st2 vs hs hv hr
    simp only [seqWith, Option.some.injEq, Prod.mk.injEq, Except.ok.injEq] at hs
    obtain ⟨rfl, rfl⟩ := hs
    rw [List.nil_append]
    exact andWith_stop ev r post st st2 hr
  | cons p pre' ih =>
    intro r post st st1 st2 vs hs hv hr
    simp only [seqWith] at hs
    cases hev : ev p st with
    | none => rw [hev] at hs; simp at hs
    | some q =>
      obtain ⟨res1, stm⟩ := q
      cases res1 with
      | error m => rw [hev] at hs; simp at hs
      | ok v =>
        rw [hev] at hs
        dsimp only at hs
        cases hseq : seqWith ev pre' stm with
        | none => rw [hseq] at hs; simp at hs
        | some q2 =>
          obtain ⟨res2, st2'⟩ := q2
          cases res2 with
          | error m => rw [hseq] at hs; simp at hs
          | ok vs1 =>
            rw [hseq] at hs
            simp only [Option.some.injEq, Prod.mk.injEq, Except.ok.injEq] at hs
            obtain ⟨rfl, rfl⟩ := hs
            rw [List.cons_append,
              andWith_skip ev p (pre' ++ r :: post) st v stm hev (hv v (by simp)) (by simp)]
            exact ih r post stm _ st2 vs1 hseq (fun u hu => hv u (by simp [hu])) hr

/-- Helper: when every operand before the last is successfully
evaluated to a non-false value and the last operand's first evaluation
is also non-false, the whole `and` loop reduces to the *second*
evaluation of the last operand. -/
theorem andWith_all_pass (ev : Expr → St → Option Res) (rs : List Expr) :
    ∀ (r : Expr) (st st1 st2 : St) (vs : List Val) (v : Val),
      seqWith ev rs st = some (.ok vs, st1) →
      (∀ u ∈ vs, u ≠ .BooleanV false) →
      ev r st1 = some (.ok v, st2) →
      v ≠ .BooleanV false →
      andWith ev (rs ++ [r]) st = ev r st2 := by
  induction rs with
  | nil =>
    intro r st st1 st2 vs v hs hv hr hvr
    simp only [seqWith, Option.some.injEq, Prod.mk.injEq, Except.ok.injEq] at hs
    obtain ⟨rfl, rfl⟩ := hs
    rw [List.nil_append]
    exact andWith_last ev r st v st2 hr hvr
  | cons p rs' ih =>
    intro r st st1 st2 vs v hs hv hr hvr
    simp only [seqWith] at hs
    cases hev : ev p st with
    | none => rw [hev] at hs; simp at hs
    | some q =>
      obtain ⟨res1, stm⟩ := q
      cases res1 with
      | error m => rw [hev] at hs; simp at hs
      | ok u =>
        rw [hev] at hs
        dsimp only at hs
        cases hseq : seqWith ev rs' stm with
        | none => rw [hseq] at hs; simp at hs
        | some q2 =>
          obtain ⟨res2, st2'⟩ := q2
          cases res2 with
          | error m => rw [hseq] at hs; simp at hs
          | ok vs1 =>
            rw [hseq] at hs
            simp only [Option.some.injEq, Prod.mk.injEq, Except.ok.injEq] at hs
            obtain ⟨rfl, rfl⟩ := hs
            rw [List.cons_append,
              andWith_skip ev p (rs' ++ [r]) st u stm hev (hv u (by simp)) (by simp)]
            exact ih r stm _ st2 vs1 v hseq (fun w hw => hv w (by simp [hw])) hr hvr

/-- C4 counterexample: with `x` initially 0, evaluating
`(and (begin (set! x (+ x 1)) x))` yields the integer 2 and leaves
`x = 2`: the final (here, only) operand's side effect happens twice,
contradicting the claim that each operand is evaluated exactly once
and that the final operand's (first) value is returned. -/
theorem and_double_eval_counterexample :
    eval 9 (.AndVar [.Begin [.SetE "x" (.PlusVar [.Var "x", .Fixnum 1]), .Var "x"]])
        [("x", 0)] ⟨[.IntegerV 0], [], []⟩
      = some (.ok (.IntegerV 2), ⟨[.IntegerV 2], [], []⟩)
    ∧ eval 9 (.AndVar [.Begin [.SetE "x" (.PlusVar [.Var "x", .Fixnum 1]), .Var "x"]])
        [("x", 0)] ⟨[.IntegerV 0], [], []⟩
      ≠ some (.ok (.IntegerV 1), ⟨[.IntegerV 1], [], []⟩) := by
  refine ⟨rfl, ?_⟩
  rw [show eval 9 (.AndVar [.Begin [.SetE "x" (.PlusVar [.Var "x", .Fixnum 1]), .Var "x"]])
        [("x", 0)] ⟨[.IntegerV 0], [], []⟩
      = some (.ok (.IntegerV 2), ⟨[.IntegerV 2], [], []⟩) from rfl]
  simp

/-- C4 amended: `and` with zero operands is boolean true; otherwise
the operands are evaluated left to right, stopping with boolean false
at the first operand that evaluates to boolean false; if no operand is
boolean false, the *final operand is evaluated a second time* and that
second result (value, state effects and all) is the result of the
`and` — so the final operand's side effects occur twice, while every
other operand's occur once. -/
theorem andVar_eval_spec (fuel : Nat) (env : Env) (st : St) :
    (eval (fuel + 1) (.AndVar []) env st = some (.ok (.BooleanV true), st))
    ∧ (∀ pre r post vs st1 st2,
      seqWith (fun e' s' => eval fuel e' env s') pre st = some (.ok vs, st1) →
      (∀ v ∈ vs, v ≠ Val.BooleanV false) →
      eval fuel r env st1 = some (.ok (.BooleanV false), st2) →
      eval (fuel + 1) (.AndVar (pre ++ r :: post)) env st
        = some (.ok (.BooleanV false), st2))
    ∧ (∀ rs r vs st1 v st2,
      seqWith (fun e' s' => eval fuel e' env s') rs st = some (.ok vs, st1) →
      (∀ u ∈ vs, u ≠ Val.BooleanV false) →
      eval fuel r env st1 = some (.ok v, st2) →
      v ≠ Val.BooleanV false →
      eval (fuel + 1) (.AndVar (rs ++ [r])) env st = eval fuel r env st2) := by
  refine ⟨rfl, ?_, ?_⟩
  · intro pre r post vs st1 st2 hs hv hr
    obtain ⟨a, rest, hpre⟩ : ∃ a rest, pre ++ r :: post = a :: rest := by
      cases pre with
      | nil => exact ⟨r, post, rfl⟩
      | cons a pre' => exact ⟨a, pre' ++ r :: post, rfl⟩
    have hand := andWith_first_false (fun e' s' => eval fuel e' env s') pre r post st st1 st2 vs hs hv hr
    calc eval (fuel + 1) (.AndVar (pre ++ r :: post)) env st
        = andWith (fun e' s' => eval fuel e' env s') (pre ++ r :: post) st := by
          rw [hpre]; rfl
      _ = some (.ok (.BooleanV false), st2) := hand
  · intro rs r vs st1 v st2 hs hv hr hvr
    obtain ⟨a, rest, hpre⟩ : ∃ a rest, rs ++ [r] = a :: rest := by
      cases rs with
      | nil => exact ⟨r, [], rfl⟩
      | cons a rs' => exact ⟨a, rs' ++ [r], rfl⟩
    have hand := andWith_all_pass (fun e' s' => eval fuel e' env s') rs r st st1 st2 vs v hs hv hr hvr
    calc eval (fuel + 1) (.AndVar (rs ++ [r])) env st
        = andWith (fun e' s' => eval fuel e' env s') (rs ++ [r]) st := by
          rw [hpre]; rfl
      _ = eval fuel r env st2 := hand

/-- C4 witness: `(and 5)` evaluates `5` twice (harmlessly, as a
literal) and `(and #t #f)` stops at the boolean false. -/
theorem andVar_eval_spec_witness :
    eval 2 (.AndVar [.Fixnum 5]) [] St.empty = eval 1 (.Fixnum 5) [] St.empty
    ∧ eval 2 (.AndVar [.TrueE, .FalseE, .Fixnum 3]) [] St.empty
        = some (.ok (.BooleanV false), St.empty) :=
  ⟨(andVar_eval_spec 1 [] St.empty).2.2 [] (.Fixnum 5) [] St.empty (.IntegerV 5) St.empty
      rfl (by simp) rfl (by simp),
   (andVar_eval_spec 1 [] St.empty).2.1 [.TrueE] .FalseE [.Fixnum 3] [.BooleanV true]
      St.empty St.empty rfl (by simp) rfl⟩

/-- C2 counterexample: the claim says *any* primitive name referenced
as an unbound bare variable (e.g. `car`, `cons`, `<`, `list?`) yields
a first-class procedure; but `Var::eval`'s internal `primitive_map`
has no entry for those operators, so the reference falls through to
the `UndefinedVariable` error. -/
theorem var_primitive_fallback_counterexample :
    eval 1 (.Var "car") [] St.empty
      = some (.error "Undefined variable: \x27car\x27", St.empty)
    ∧ eval 1 (.Var "cons") [] St.empty
      = some (.error "Undefined variable: \x27cons\x27", St.empty)
    ∧ eval 1 (.Var "<") [] St.empty
      = some (.error "Undefined variable: \x27<\x27", St.empty)
    ∧ eval 1 (.Var "list?") [] St.empty
      = some (.error "Undefined variable: \x27list?\x27", St.empty) :=
  ⟨rfl, rfl, rfl, rfl⟩

/-- C2 amended: an unbound variable reference with a valid name
succeeds exactly for the seventeen primitive names that
`Var::eval`'s internal `primitive_map` covers (`void`, `exit`, the
seven type predicates, `display`, `+`, `-`, `*`, `/`, `modulo`,
`expt`, `eq?`), returning a `Procedure` wrapping that primitive's
implementation expression and parameter names; every other name —
including the remaining primitives such as `car`, `cons`, `<`,
`list?` — fails with `UndefinedVariable`. -/
theorem var_primitive_fallback (fuel : Nat) (name : String) (env : Env) (st : St) :
    (∀ n ∈ coveredPrimitives, (primClosure n).isSome = true)
    ∧ (∀ p ∈ primList, p.1 ∉ coveredPrimitives → (primClosure p.1).isSome = false)
    ∧ (∀ ex ps, startsBad name = false → firstForbidden name = none →
        isNumericName name = false → lookupEnv name env = none →
        primClosure name = some (ex, ps) →
        eval (fuel + 1) (.Var name) env st = some (.ok (.ProcedureV ps ex env), st))
    ∧ (startsBad name = false → firstForbidden name = none →
        isNumericName name = false → lookupEnv name env = none →
        primClosure name = none →
        eval (fuel + 1) (.Var name) env st
          = some (.error ("Undefined variable: \x27" ++ name ++ "\x27"), st)) := by
  refine ⟨by decide, by decide, fun ex ps h1 h2 h3 h4 h5 => ?_, fun h1 h2 h3 h4 h5 => ?_⟩
  · simp [eval, h1, h2, h3, h4, h5]
  · simp [eval, h1, h2, h3, h4, h5]

/-- C2 witness: `+` yields the wrapped variadic-plus closure, `car`
fails. -/
theorem var_primitive_fallback_witness :
    eval 1 (.Var "+") [] St.empty
      = some (.ok (.ProcedureV [] (.PlusVar []) []), St.empty)
    ∧ eval 1 (.Var "modulo") [] St.empty
      = some (.ok (.ProcedureV ["parm1", "parm2"]
          (.Modulo (.Var "parm1") (.Var "parm2")) []), St.empty) :=
  ⟨(var_primitive_fallback 0 "+" [] St.empty).2.2.1 (.PlusVar []) [] rfl rfl rfl rfl rfl,
   (var_primitive_fallback 0 "modulo" [] St.empty).2.2.1
      (.Modulo (.Var "parm1") (.Var "parm2")) ["parm1", "parm2"] rfl rfl rfl rfl rfl⟩

/-- C8: for numeric operands, binary `/` fails with `DivisionByZero`
exactly when the divisor is the integer 0 or a rational with numerator
0; two integers divide to an `Integer` exactly quotient when the
divisor divides evenly and to the unreduced `Rational a/b` otherwise;
the integer/rational mixes multiply by the reciprocal via
cross-multiplication, also without reduction. -/
theorem div_rator_spec :
    (∀ v1 v2, isNumV v1 = true → isNumV v2 = true →
      (divRator v1 v2 = .error "Division by zero"
        ↔ (v2 = Val.IntegerV 0 ∨ ∃ d, v2 = Val.RationalV 0 d)))
    ∧ (∀ a b : Int, b ≠ 0 → b ∣ a →
        divRator (.IntegerV a) (.IntegerV b) = .ok (.IntegerV (a / b)))
    ∧ (∀ a b : Int, b ≠ 0 → ¬ b ∣ a →
        divRator (.IntegerV a) (.IntegerV b) = .ok (.RationalV a b))
    ∧ (∀ a n d : Int, n ≠ 0 →
        divRator (.IntegerV a) (.RationalV n d) = .ok (.RationalV (a * d) n))
    ∧ (∀ n d b : Int, b ≠ 0 →
        divRator (.RationalV n d) (.IntegerV b) = .ok (.RationalV n (d * b)))
    ∧ (∀ n1 d1 n2 d2 : Int, n2 ≠ 0 →
        divRator (.RationalV n1 d1) (.RationalV n2 d2)
          = .ok (.RationalV (n1 * d2) (d1 * n2))) := by
  have hchar : ∀ v2, isNumV v2 = true →
      (divZero v2 = true ↔ (v2 = Val.IntegerV 0 ∨ ∃ d, v2 = Val.RationalV 0 d)) := by
    intro v2 h2
    cases v2 <;> simp_all [isNumV, divZero]
  have hne : ∀ v1 v2, isNumV v1 = true → isNumV v2 = true → divZero v2 = false →
      divRator v1 v2 ≠ .error "Division by zero" := by
    intro v1 v2 h1 h2 hz
    cases v1 <;> simp_all [isNumV] <;>
      cases v2 <;> simp_all [isNumV, divRator] <;>
      split <;> simp
  refine ⟨fun v1 v2 h1 h2 => ⟨fun hdiv => ?_, fun hz => ?_⟩,
    fun a b hb hdvd => ?_, fun a b hb hdvd => ?_, fun a n d hn => ?_,
    fun n d b hb => ?_, fun n1 d1 n2 d2 hn => ?_⟩
  · by_cases hz : divZero v2 = true
    · exact (hchar v2 h2).mp hz
    · exact absurd hdiv (hne v1 v2 h1 h2 (by simpa using hz))
  · have hz : divZero v2 = true := (hchar v2 h2).mpr hz
    simp [divRator, hz]
  · have hz : divZero (Val.IntegerV b) = false := by simp [divZero, hb]
    have ht : a.tmod b = 0 := Int.dvd_iff_tmod_eq_zero.mp hdvd
    simp [divRator, hz, ht, Int.tdiv_eq_ediv_of_dvd hdvd]
  · have hz : divZero (Val.IntegerV b) = false := by simp [divZero, hb]
    have ht : ¬ a.tmod b = 0 := fun h => hdvd (Int.dvd_iff_tmod_eq_zero.mpr h)
    simp [divRator, hz, ht]
  · simp [divRator, divZero, hn]
  · simp [divRator, divZero, hb]
  · simp [divRator, divZero, hn]

/-- C8 witness: `(/ 6 3)` is the integer 2, `(/ 4 6)` is the unreduced
rational 4/6, `(/ 1 0)` fails. -/
theorem div_rator_spec_witness :
    divRator (.IntegerV 6) (.IntegerV 3) = .ok (.IntegerV 2)
    ∧ divRator (.IntegerV 4) (.IntegerV 6) = .ok (.RationalV 4 6)
    ∧ divRator (.IntegerV 1) (.IntegerV 0) = .error "Division by zero" :=
  ⟨by
    have h := div_rator_spec.2.1 6 3 (by decide) (by decide)
    simpa using h,
   div_rator_spec.2.2.1 4 6 (by decide) (by decide),
   (div_rator_spec.1 (.IntegerV 1) (.IntegerV 0) rfl rfl).mpr (Or.inl rfl)⟩

/-- Helper: the head of `countDots` over a cons. -/
theorem countDots_cons (x : Stx) (xs : List Stx) :
    countDots (x :: xs) = countDots xs + (if isDotStx x then 1 else 0) := by
  simp [countDots, List.countP_cons]

/-- Helper: the dot scan walks past a dot-free block unchanged. -/
theorem scanDots_clean (xs : List Stx) : ∀ (rest : List Stx) (i : Nat) (acc : Option Nat),
    countDots xs = 0 →
    scanDots (xs ++ rest) i acc = scanDots rest (i + xs.length) acc := by
  induction xs with
  | nil => intro rest i acc _; simp
  | cons x xs' ih =>
    intro rest i acc h
    rw [countDots_cons] at h
    have hx : isDotStx x = false := by
      by_cases hb : isDotStx x = true
      · simp [hb] at h
      · simpa using hb
    have hxs : countDots xs' = 0 := by omega
    have harith : i + 1 + xs'.length = i + (x :: xs').length := by simp; omega
    cases x with
    | symbolS t =>
      have ht : ¬ t = "." := by simpa [isDotStx] using hx
      simp only [List.cons_append, scanDots, ht, if_false, List.append_eq]
      rw [ih rest (i + 1) acc hxs, harith]
    | numberS n =>
      simp only [List.cons_append, scanDots, List.append_eq]
      rw [ih rest (i + 1) acc hxs, harith]
    | rationalS a b =>
      simp only [List.cons_append, scanDots, List.append_eq]
      rw [ih rest (i + 1) acc hxs, harith]
    | stringS t =>
      simp only [List.cons_append, scanDots, List.append_eq]
      rw [ih rest (i + 1) acc hxs, harith]
    | trueS =>
      simp only [List.cons_append, scanDots, List.append_eq]
      rw [ih rest (i + 1) acc hxs, harith]
    | falseS =>
      simp only [List.cons_append, scanDots, List.append_eq]
      rw [ih rest (i + 1) acc hxs, harith]
    | listS l =>
      simp only [List.cons_append, scanDots, List.append_eq]
      rw [ih rest (i + 1) acc hxs, harith]

/-- Helper: a dot-free list leaves the scan's accumulator untouched. -/
theorem scanDots_clean_done (xs : List Stx) (i : Nat) (acc : Option Nat)
    (h : countDots xs = 0) : scanDots xs i acc = .ok acc := by
  have := scanDots_clean xs [] i acc h
  simpa using this

/-- Helper: once a dot has been recorded, a second dot anywhere makes
the scan throw the multiple-dots error. -/
theorem scanDots_second_dot (xs : List Stx) : ∀ (i : Nat) (p : Nat),
    1 ≤ countDots xs →
    scanDots xs i (some p)
      = .error "quote: invalid list (multiple dots are not allowed)" := by
  induction xs with
  | nil => intro i p h; simp [countDots] at h
  | cons x xs' ih =>
    intro i p h
    rw [countDots_cons] at h
    cases x with
    | symbolS t =>
      by_cases ht : t = "."
      · subst ht
        simp [scanDots]
      · have hxs : 1 ≤ countDots xs' := by
          simp [isDotStx, ht] at h
          omega
        simp only [scanDots, ht, if_false]
        exact ih (i + 1) p hxs
    | numberS n =>
      have hxs : 1 ≤ countDots xs' := by simp [isDotStx] at h; omega
      simp only [scanDots]; exact ih (i + 1) p hxs
    | rationalS a b =>
      have hxs : 1 ≤ countDots xs' := by simp [isDotStx] at h; omega
      simp only [scanDots]; exact ih (i + 1) p hxs
    | stringS t =>
      have hxs : 1 ≤ countDots xs' := by simp [isDotStx] at h; omega
      simp only [scanDots]; exact ih (i + 1) p hxs
    | trueS =>
      have hxs : 1 ≤ countDots xs' := by simp [isDotStx] at h; omega
      simp only [scanDots]; exact ih (i + 1) p hxs
    | falseS =>
      have hxs : 1 ≤ countDots xs' := by simp [isDotStx] at h; omega
      simp only [scanDots]; exact ih (i + 1) p hxs
    | listS l =>
      have hxs : 1 ≤ countDots xs' := by simp [isDotStx] at h; omega
      simp only [scanDots]; exact ih (i + 1) p hxs

/-- Helper: two or more dots make the scan throw. -/
theorem scanDots_multi (xs : List Stx) : ∀ (i : Nat),
    2 ≤ countDots xs →
    scanDots xs i none
      = .error "quote: invalid list (multiple dots are not allowed)" := by
  induction xs with
  | nil => intro i h; simp [countDots] at h
  | cons x xs' ih =>
    intro i h
    rw [countDots_cons] at h
    cases x with
    | symbolS t =>
      by_cases ht : t = "."
      · subst ht
        have hxs : 1 ≤ countDots xs' := by
          simp [isDotStx] at h
          omega
        simp only [scanDots, if_pos rfl]
        exact scanDots_second_dot xs' (i + 1) i hxs
      · have hxs : 2 ≤ countDots xs' := by
          simp [isDotStx, ht] at h
          omega
        simp only [scanDots, ht, if_false]
        exact ih (i + 1) hxs
    | numberS n =>
      have hxs : 2 ≤ countDots xs' := by simp [isDotStx] at h; omega
      simp only [scanDots]; exact ih (i + 1) hxs
    | rationalS a b =>
      have hxs : 2 ≤ countDots xs' := by simp [isDotStx] at h; omega
      simp only [scanDots]; exact ih (i + 1) hxs
    | stringS t =>
      have hxs : 2 ≤ countDots xs' := by simp [isDotStx] at h; omega
      simp only [scanDots]; exact ih (i + 1) hxs
    | trueS =>
      have hxs : 2 ≤ countDots xs' := by simp [isDotStx] at h; omega
      simp only [scanDots]; exact ih (i + 1) hxs
    | falseS =>
      have hxs : 2 ≤ countDots xs' := by simp [isDotStx] at h; omega
      simp only [scanDots]; exact ih (i + 1) hxs
    | listS l =>
      have hxs : 2 ≤ countDots xs' := by simp [isDotStx] at h; omega
      simp only [scanDots]; exact ih (i + 1) hxs

/-- Helper: a non-empty dot-free list ends in a non-dot element. -/
theorem lastIsDot_clean (xs : List Stx) (hne : xs ≠ []) (h : countDots xs = 0) :
    lastIsDot xs = false := by
  cases hx : xs.getLast? with
  | none => exact absurd (List.getLast?_eq_none_iff.mp hx) hne
  | some x =>
    have hmem : x ∈ xs := List.mem_of_getLast?_eq_some hx
    have hxd : isDotStx x = false := by
      have := (List.countP_eq_zero.mp h) x hmem
      simpa using this
    simp [lastIsDot, hx, hxd]

/-- Helper: `quoteStx` throws the multiple-dots error on a list with
two or more dot elements. -/
theorem quote_multi_dot (fuel : Nat) (es : List Stx) (st : St)
    (h : 2 ≤ countDots es) :
    quoteStx (fuel + 1) (.listS es) st
      = some (.error "quote: invalid list (multiple dots are not allowed)") := by
  simp only [quoteStx]
  rw [scanDots_multi es 0 h]

/-- Helper: `quoteStx` throws the trailing-dot error when the single
dot is the last element. -/
theorem quote_trailing_dot (fuel : Nat) (pre : List Stx) (st : St)
    (h : countDots pre = 0) :
    quoteStx (fuel + 1) (.listS (pre ++ [.symbolS "."])) st
      = some (.error "quote: invalid dotted pair (multiple dots or trailing dot)") := by
  have hscan : scanDots (pre ++ [.symbolS "."]) 0 none = .ok (some pre.length) := by
    rw [scanDots_clean pre [.symbolS "."] 0 none h]
    simp [scanDots]
  have hlast : lastIsDot (pre ++ [.symbolS "."]) = true := by
    simp [lastIsDot, List.getLast?_concat, isDotStx]
  simp only [quoteStx]
  rw [hscan]
  simp [hlast]

/-- Helper: `quoteStx` throws the dot-at-start error when the single
dot is first and not last. -/
theorem quote_leading_dot (fuel : Nat) (rest : List Stx) (st : St)
    (hne : rest ≠ []) (h : countDots rest = 0) :
    quoteStx (fuel + 1) (.listS (.symbolS "." :: rest)) st
      = some (.error "quote: invalid list (dot cannot be at the start)") := by
  have hscan : scanDots (.symbolS "." :: rest) 0 none = .ok (some 0) := by
    simp only [scanDots, if_pos rfl]
    exact scanDots_clean_done rest 1 (some 0) h
  have hlast : lastIsDot (.symbolS "." :: rest) = false := by
    cases hx : rest.getLast? with
    | none => exact absurd (List.getLast?_eq_none_iff.mp hx) hne
    | some x =>
      have hmem : x ∈ rest := List.mem_of_getLast?_eq_some hx
      have hxd : isDotStx x = false := by
        have := (List.countP_eq_zero.mp h) x hmem
        simpa using this
      simp [lastIsDot, List.getLast?_cons, hx, hxd]
  simp only [quoteStx]
  rw [hscan]
  simp [hlast]

/-- Helper: `quoteStx` throws the only-one-element-after-dot error
when more than one element follows the single interior dot. -/
theorem quote_long_tail_dot (fuel : Nat) (pre post : List Stx) (st : St)
    (hpre : pre ≠ []) (hpost2 : 2 ≤ post.length)
    (h1 : countDots pre = 0) (h2 : countDots post = 0) :
    quoteStx (fuel + 1) (.listS (pre ++ .symbolS "." :: post)) st
      = some (.error "quote: invalid list (only one element allowed after dot)") := by
  have hpostne : post ≠ [] := by
    intro hp; rw [hp] at hpost2; simp at hpost2
  have hscan : scanDots (pre ++ .symbolS "." :: post) 0 none = .ok (some pre.length) := by
    rw [scanDots_clean pre (.symbolS "." :: post) 0 none h1]
    simp only [scanDots]
    simp only [Nat.zero_add, if_pos]
    exact scanDots_clean_done post (pre.length + 1) (some pre.length) h2
  have hlast : lastIsDot (pre ++ .symbolS "." :: post) = false := by
    have : (pre ++ .symbolS "." :: post).getLast? = post.getLast? := by
      rw [List.getLast?_append_of_ne_nil pre (by simp)]
      simp [List.getLast?_cons]
      cases hx : post.getLast? with
      | none => exact absurd (List.getLast?_eq_none_iff.mp hx) hpostne
      | some x => rfl
    rw [lastIsDot, this]
    cases hx : post.getLast? with
    | none => exact absurd (List.getLast?_eq_none_iff.mp hx) hpostne
    | some x =>
      have hmem : x ∈ post := List.mem_of_getLast?_eq_some hx
      have hxd : isDotStx x = false := by
        have := (List.countP_eq_zero.mp h2) x hmem
        simpa using this
      simpa using hxd
  have hp0 : ¬ pre.length = 0 := by simpa using hpre
  have hlen : (pre ++ .symbolS "." :: post).length = pre.length + 1 + post.length := by
    simp; omega
  simp only [quoteStx]
  rw [hscan]
  simp only [hlast, Bool.false_eq_true, if_false]
  rw [if_neg hp0, if_neg (by rw [hlen]; omega), if_pos (by rw [hlen]; omega)]

/-- Helper: with exactly one interior dot followed by exactly one
element, `quoteStx` takes the dotted-pair branch: it quotes the
element after the dot and chains the prefix onto it. -/
theorem quote_dotted_build (fuel : Nat) (pre : List Stx) (suf : Stx) (st : St)
    (hpre : pre ≠ []) (h1 : countDots pre = 0) (h2 : isDotStx suf = false) :
    quoteStx (fuel + 1) (.listS (pre ++ [.symbolS ".", suf])) st
      = match quoteStx fuel suf st with
        | none => none
        | some (.error m) => some (.error m)
        | some (.ok (sufv, st1)) => chainWith (quoteStx fuel) pre sufv st1 := by
  have hscan : scanDots (pre ++ [.symbolS ".", suf]) 0 none = .ok (some pre.length) := by
    rw [scanDots_clean pre [.symbolS ".", suf] 0 none h1]
    simp only [scanDots, if_pos rfl]
    cases suf <;> simp_all [scanDots, isDotStx]
  have hlast : lastIsDot (pre ++ [.symbolS ".", suf]) = false := by
    have heq : pre ++ [.symbolS ".", suf] = (pre ++ [.symbolS "."]) ++ [suf] := by simp
    rw [heq, lastIsDot, List.getLast?_concat]
    simpa using h2
  have hp0 : ¬ pre.length = 0 := by simpa using hpre
  have hlen : (pre ++ [.symbolS ".", suf]).length = pre.length + 2 := by simp
  have hgetd : (pre ++ [.symbolS ".", suf]).getD (pre.length + 1) (.listS []) = suf := by
    rw [List.getD_append_right _ _ _ _ (by omega)]
    simp
  have htake : (pre ++ [.symbolS ".", suf]).take pre.length = pre :=
    List.take_left' rfl
  simp only [quoteStx]
  rw [hscan]
  simp only [hlast, Bool.false_eq_true, if_false]
  rw [if_neg hp0, if_neg (by rw [hlen]; omega), if_neg (by rw [hlen]; omega), hgetd, htake]

/-- Helper: the heap segment produced by quoting a dotted list of
integer literals has one pair per prefix element. -/
theorem quoteChainHeap_length (ns : List Int) (acc : Val) (L : Nat) :
    (quoteChainHeap ns acc L).length = ns.length := by
  induction ns with
  | nil => rfl
  | cons n rest ih =>
    cases rest with
    | nil => rfl
    | cons b rest' =>
      rw [quoteChainHeap]
      simp only [List.length_append, List.length_cons]
      rw [ih]
      simp

/-- Helper: chaining quoted integer literals onto a tail value
allocates one pair per element, right to left, and returns the address
of the last-allocated pair. -/
theorem chainWith_nums (fuel : Nat) (ns : List Int) : ∀ (acc : Val) (st : St), ns ≠ [] →
    chainWith (quoteStx (fuel + 1)) (ns.map .numberS) acc st
      = some (.ok (.PairV (st.pairs.length + ns.length - 1),
          { st with pairs := st.pairs ++ quoteChainHeap ns acc st.pairs.length })) := by
  induction ns with
  | nil => intro acc st h; exact absurd rfl h
  | cons n rest ih =>
    intro acc st _
    cases rest with
    | nil =>
      simp [chainWith, quoteStx, allocPair, quoteChainHeap]
    | cons b rest' =>
      rw [List.map_cons, chainWith, ih acc st (by simp)]
      simp only [quoteStx]
      simp only [allocPair, quoteChainHeap]
      simp [quoteChainHeap_length, List.length_cons, List.append_assoc]

/-- C7: quoting list syntax handles `.` exactly as the claim states:
a single interior dot followed by exactly one element builds the
dotted pair whose proper-list prefix is the elements before the dot
and whose final cdr is the quoted element after the dot (shown in
general for the branch taken, and with the explicit pair-heap result
for lists of integer literals, covering `(1 . 2)` ⇒ `Pair(1, 2)` and
`(1 2 . 3)` ⇒ `Pair(1, Pair(2, 3))`); any other placement — more than
one dot, a trailing dot such as `(1 .)`, a leading dot, or more than
one element after the dot — fails with a quoting error. -/
theorem quote_dotted_pair_spec (fuel : Nat) (st : St) :
    (∀ es, 2 ≤ countDots es →
      quoteStx (fuel + 1) (.listS es) st
        = some (.error "quote: invalid list (multiple dots are not allowed)"))
    ∧ (∀ pre, countDots pre = 0 →
      quoteStx (fuel + 1) (.listS (pre ++ [.symbolS "."])) st
        = some (.error "quote: invalid dotted pair (multiple dots or trailing dot)"))
    ∧ (∀ rest, rest ≠ [] → countDots rest = 0 →
      quoteStx (fuel + 1) (.listS (.symbolS "." :: rest)) st
        = some (.error "quote: invalid list (dot cannot be at the start)"))
    ∧ (∀ pre post, pre ≠ [] → 2 ≤ post.length → countDots pre = 0 → countDots post = 0 →
      quoteStx (fuel + 1) (.listS (pre ++ .symbolS "." :: post)) st
        = some (.error "quote: invalid list (only one element allowed after dot)"))
    ∧ (∀ pre suf, pre ≠ [] → countDots pre = 0 → isDotStx suf = false →
      quoteStx (fuel + 1) (.listS (pre ++ [.symbolS ".", suf])) st
        = match quoteStx fuel suf st with
          | none => none
          | some (.error m) => some (.error m)
          | some (.ok (sufv, st1)) => chainWith (quoteStx fuel) pre sufv st1)
    ∧ (∀ ns (m : Int), ns ≠ [] →
      quoteStx (fuel + 2) (.listS (ns.map .numberS ++ [.symbolS ".", .numberS m])) st
        = some (.ok (.PairV (st.pairs.length + ns.length - 1),
            { st with pairs := st.pairs ++ quoteChainHeap ns (.IntegerV m) st.pairs.length }))) := by
  refine ⟨fun es h => quote_multi_dot fuel es st h,
    fun pre h => quote_trailing_dot fuel pre st h,
    fun rest hne h => quote_leading_dot fuel rest st hne h,
    fun pre post hpre hp2 h1 h2 => quote_long_tail_dot fuel pre post st hpre hp2 h1 h2,
    fun pre suf hpre h1 h2 => quote_dotted_build fuel pre suf st hpre h1 h2,
    fun ns m hne => ?_⟩
  have hb := quote_dotted_build (fuel + 1) (ns.map .numberS) (.numberS m) st
    (by simpa using hne)
    (by simp [countDots, List.countP_eq_zero, isDotStx])
    (by simp [isDotStx])
  rw [hb]
  have : quoteStx (fuel + 1) (.numberS m) st = some (.ok (.IntegerV m, st)) := by
    simp [quoteStx]
  rw [this]
  exact chainWith_nums fuel ns (.IntegerV m) st hne

/-- C7 witness: `(1 . 2)` and `(1 2 . 3)` build the dotted pairs, and
`(1 .)` and `(1 . 2 . 3)` both fail. -/
theorem quote_dotted_pair_spec_witness :
    quoteStx 2 (.listS [.numberS 1, .symbolS ".", .numberS 2]) St.empty
      = some (.ok (.PairV 0, ⟨[], [(.IntegerV 1, .IntegerV 2)], []⟩))
    ∧ quoteStx 2 (.listS [.numberS 1, .numberS 2, .symbolS ".", .numberS 3]) St.empty
      = some (.ok (.PairV 1, ⟨[], [(.IntegerV 2, .IntegerV 3), (.IntegerV 1, .PairV 0)], []⟩))
    ∧ quoteStx 1 (.listS [.numberS 1, .symbolS "."]) St.empty
      = some (.error "quote: invalid dotted pair (multiple dots or trailing dot)")
    ∧ quoteStx 1 (.listS [.numberS 1, .symbolS ".", .numberS 2, .symbolS ".", .numberS 3]) St.empty
      = some (.error "quote: invalid list (multiple dots are not allowed)") := by
  refine ⟨?_, ?_, ?_, ?_⟩
  · have h := (quote_dotted_pair_spec 0 St.empty).2.2.2.2.2 [1] 2 (by simp)
    simpa [quoteChainHeap, St.empty] using h
  · have h := (quote_dotted_pair_spec 0 St.empty).2.2.2.2.2 [1, 2] 3 (by simp)
    simpa [quoteChainHeap, St.empty] using h
  · have h := (quote_dotted_pair_spec 0 St.empty).2.1 [.numberS 1]
      (by simp [countDots, isDotStx])
    simpa using h
  · have h := (quote_dotted_pair_spec 0 St.empty).1
      [.numberS 1, .symbolS ".", .numberS 2, .symbolS ".", .numberS 3]
      (by simp [countDots, List.countP_cons, isDotStx])
    simpa using h

/-! ### The cdr-walk of `list?` (groundwork for C6)

`walk h n v` is the value `n` cdr steps from `v`; non-pairs are fixed
points. -/

/-- A non-pair value is a fixed point of the cdr step. -/
theorem nextV_nonpair (h : List (Val × Val)) (u : Val) (hu : isPairV u = false) :
    nextV h u = u := by
  cases u <;> simp_all [isPairV, nextV]

/-- Unfolding one step of the walk. -/
theorem walk_succ (h : List (Val × Val)) (v : Val) (n : Nat) :
    walk h (n + 1) v = nextV h (walk h n v) :=
  Function.iterate_succ_apply' (nextV h) n v

/-- Splitting the walk. -/
theorem walk_add (h : List (Val × Val)) (v : Val) (m n : Nat) :
    walk h (m + n) v = walk h m (walk h n v) :=
  Function.iterate_add_apply (nextV h) m n v

/-- Once the walk reaches a non-pair it stays there. -/
theorem walk_absorb (h : List (Val × Val)) (v : Val) (t : Nat)
    (htp : isPairV (walk h t v) = false) :
    ∀ m, t ≤ m → walk h m v = walk h t v := by
  have key : ∀ k, walk h (t + k) v = walk h t v := by
    intro k
    induction k with
    | zero => rfl
    | succ k ih =>
      have : t + (k + 1) = (t + k) + 1 := by omega
      rw [this, walk_succ, ih, nextV_nonpair h _ htp]
  intro m hm
  have : m = t + (m - t) := by omega
  rw [this, key]

/-- A pair value carries a heap address. -/
theorem isPairV_exists (u : Val) (hu : isPairV u = true) : ∃ a, u = .PairV a := by
  cases u <;> simp_all [isPairV]

/-- Every pair the walk visits after the start is the cdr of some
heap pair. -/
theorem walk_stored (h : List (Val × Val)) (v : Val) (n : Nat)
    (hp : isPairV (walk h (n + 1) v) = true) :
    walk h (n + 1) v ∈ h.map Prod.snd := by
  have hpn : isPairV (walk h n v) = true := by
    by_contra hc
    rw [Bool.not_eq_true] at hc
    rw [walk_succ, nextV_nonpair h _ hc, hc] at hp
    exact Bool.noConfusion hp
  obtain ⟨a, ha⟩ := isPairV_exists _ hpn
  rw [walk_succ, ha] at hp ⊢
  by_cases hal : a < h.length
  · have hget : h.getD a (Val.NullV, Val.NullV) = h[a] := by
      rw [List.getD_eq_getElem?_getD, List.getElem?_eq_getElem hal]
      rfl
    rw [nextV, hget]
    exact List.mem_map.mpr ⟨h[a], List.getElem_mem hal, rfl⟩
  · have hget : h.getD a (Val.NullV, Val.NullV) = (Val.NullV, Val.NullV) := by
      rw [List.getD_eq_getElem?_getD, List.getElem?_eq_none (by omega)]
      rfl
    rw [nextV, hget] at hp
    simp [isPairV] at hp

/-- A repeated value makes the walk periodic from the first
occurrence on. -/
theorem walk_period (h : List (Val × Val)) (v : Val) (i j : Nat) (hij : i ≤ j)
    (heq : walk h i v = walk h j v) :
    ∀ m, i ≤ m → walk h (m + (j - i)) v = walk h m v := by
  intro m hm
  have h1 : m + (j - i) = (m - i) + j := by omega
  have h2 : m = (m - i) + i := by omega
  rw [h1, walk_add, ← heq, ← walk_add, ← h2]

/-- Iterated periodicity. -/
theorem walk_period_mul (h : List (Val × Val)) (v : Val) (i j : Nat) (hij : i ≤ j)
    (heq : walk h i v = walk h j v) :
    ∀ c m, i ≤ m → walk h (m + c * (j - i)) v = walk h m v := by
  intro c
  induction c with
  | zero => intro m _; simp
  | succ c ih =>
    intro m hm
    have : m + (c + 1) * (j - i) = (m + c * (j - i)) + (j - i) := by ring
    rw [this, walk_period h v i j hij heq _ (by omega), ih m hm]

/-- Index reduction modulo the period. -/
theorem walk_mod (h : List (Val × Val)) (v : Val) (i j : Nat) (hij : i < j)
    (heq : walk h i v = walk h j v) (m : Nat) (hm : i ≤ m) :
    walk h m v = walk h (i + (m - i) % (j - i)) v := by
  have hp1 : 1 ≤ j - i := by omega
  have hdm : ((m - i) / (j - i)) * (j - i) + (m - i) % (j - i) = m - i := by
    rw [Nat.mul_comm]
    exact Nat.div_add_mod (m - i) (j - i)
  have hm2 : m = (i + (m - i) % (j - i)) + ((m - i) / (j - i)) * (j - i) := by omega
  conv => lhs; rw [hm2]
  rw [walk_period_mul h v i j (by omega) heq ((m - i) / (j - i))
    (i + (m - i) % (j - i)) (by omega)]

/-- Object identity implies value equality. -/
theorem identV_eq_of_true (u w : Val) (hid : identV u w = true) : u = w := by
  cases u <;> cases w <;> simp_all [identV]

/-- A value that satisfies `isNullV` is `Null`. -/
theorem isNullV_eq (u : Val) (hu : isNullV u = true) : u = .NullV := by
  cases u <;> simp_all [isNullV]

/-- When the cdr chain reaches a non-pair at minimal index `t` and all
earlier positions are pairwise distinct, the tortoise-hare loop halts
with `isNullV` of the terminal value, from any in-phase pair of
positions with enough fuel. -/
theorem isListLoop_reaches (h : List (Val × Val)) (v : Val) (t : Nat)
    (htmin : ∀ j, j < t → isPairV (walk h j v) = true)
    (htp : isPairV (walk h t v) = false)
    (hdist : ∀ i j, i < j → j < t → walk h i v ≠ walk h j v) :
    ∀ f k, t + 1 ≤ f + k → 1 ≤ f →
      isListLoop h f (walk h k v) (walk h (2 * k + 1) v) = some (isNullV (walk h t v)) := by
  intro f
  induction f with
  | zero => intro k _ h1; omega
  | succ f ih =>
    intro k hfk _
    by_cases hc : 2 * k + 1 < t
    · have hfast : isPairV (walk h (2 * k + 1) v) = true := htmin _ hc
      have hident : identV (walk h k v) (walk h (2 * k + 1) v) = false := by
        cases hb : identV (walk h k v) (walk h (2 * k + 1) v)
        · rfl
        · exact absurd (identV_eq_of_true _ _ hb) (hdist k (2 * k + 1) (by omega) hc)
      have hs1 : nextV h (walk h k v) = walk h (k + 1) v := (walk_succ h v k).symm
      have hf1 : nextV h (walk h (2 * k + 1) v) = walk h (2 * k + 2) v :=
        (walk_succ h v (2 * k + 1)).symm
      rw [isListLoop, hfast, hident]
      simp only [reduceIte]
      rw [hs1, hf1]
      by_cases hc2 : isPairV (walk h (2 * k + 2) v) = true
      · rw [hc2]
        simp only [reduceIte]
        have hf2 : nextV h (walk h (2 * k + 2) v) = walk h (2 * k + 3) v :=
          (walk_succ h v (2 * k + 2)).symm
        rw [hf2]
        have ht3 : 2 * k + 2 < t := by
          by_contra hcc
          have habs := walk_absorb h v t htp (2 * k + 2) (by omega)
          rw [habs, htp] at hc2
          exact Bool.noConfusion hc2
        have h23 : 2 * k + 3 = 2 * (k + 1) + 1 := by omega
        rw [h23]
        exact ih (k + 1) (by omega) (by omega)
      · rw [Bool.not_eq_true] at hc2
        rw [hc2]
        have ht2 : t ≤ 2 * k + 2 := by
          by_contra hcc
          have := htmin (2 * k + 2) (by omega)
          rw [hc2] at this
          exact Bool.noConfusion this
        rw [walk_absorb h v t htp (2 * k + 2) ht2]
        exact if_neg Bool.false_ne_true
    · push_neg at hc
      have habs : walk h (2 * k + 1) v = walk h t v := walk_absorb h v t htp (2 * k + 1) hc
      rw [isListLoop, habs, htp]
      simp

/-- When every position on the cdr chain is a pair and some in-phase
meeting exists within the fuel window, the tortoise-hare loop answers
`false`. -/
theorem isListLoop_cyclic (h : List (Val × Val)) (v : Val)
    (hall : ∀ n, isPairV (walk h n v) = true) :
    ∀ f k0, (∃ k, k0 ≤ k ∧ k < k0 + f ∧ walk h k v = walk h (2 * k + 1) v) →
      isListLoop h f (walk h k0 v) (walk h (2 * k0 + 1) v) = some false := by
  intro f
  induction f with
  | zero =>
    intro k0 hex
    obtain ⟨k, h1, h2, _⟩ := hex
    omega
  | succ f ih =>
    intro k0 hex
    obtain ⟨k, hk1, hk2, hkeq⟩ := hex
    have hfast := hall (2 * k0 + 1)
    by_cases heq : walk h k0 v = walk h (2 * k0 + 1) v
    · obtain ⟨a, ha⟩ := isPairV_exists _ (hall k0)
      have hident : identV (walk h k0 v) (walk h (2 * k0 + 1) v) = true := by
        rw [← heq, ha]
        simp [identV]
      rw [isListLoop, hfast, hident]
      simp only [reduceIte]
    · have hident : identV (walk h k0 v) (walk h (2 * k0 + 1) v) = false := by
        cases hb : identV (walk h k0 v) (walk h (2 * k0 + 1) v)
        · rfl
        · exact absurd (identV_eq_of_true _ _ hb) heq
      have hkne : k ≠ k0 := by
        intro hkk
        rw [hkk] at hkeq
        exact heq hkeq
      have hs1 : nextV h (walk h k0 v) = walk h (k0 + 1) v := (walk_succ h v k0).symm
      have hf1 : nextV h (walk h (2 * k0 + 1) v) = walk h (2 * k0 + 2) v :=
        (walk_succ h v (2 * k0 + 1)).symm
      rw [isListLoop, hfast, hident]
      simp only [reduceIte]
      rw [hs1, hf1, hall (2 * k0 + 2)]
      simp only [reduceIte]
      have hf2 : nextV h (walk h (2 * k0 + 2) v) = walk h (2 * (k0 + 1) + 1) v := by
        rw [show 2 * (k0 + 1) + 1 = (2 * k0 + 2) + 1 from by omega]
        exact (walk_succ h v (2 * k0 + 2)).symm
      rw [hf2]
      exact ih (k0 + 1) ⟨k, by omega, by omega, hkeq⟩

/-- A repeated position on the chain with small indices yields an
in-phase meeting point below the fuel budget. -/
theorem meeting_of_repeat (h : List (Val × Val)) (v : Val) (i j : Nat)
    (h1 : 1 ≤ i) (hij : i < j) (hjN : j ≤ h.length + 1)
    (heq : walk h i v = walk h j v) :
    ∃ k, k < (h.length + 2) * (h.length + 2) ∧ walk h k v = walk h (2 * k + 1) v := by
  refine ⟨(j - i) * (i + 1) - 1, ?_, ?_⟩
  · have hp : j - i ≤ h.length := by omega
    have hi : i + 1 ≤ h.length + 1 := by omega
    have hmul : (j - i) * (i + 1) ≤ h.length * (h.length + 1) := Nat.mul_le_mul hp hi
    have hNN : h.length * (h.length + 1) ≤ (h.length + 2) * (h.length + 2) :=
      Nat.mul_le_mul (by omega) (by omega)
    have hpos : 0 < (j - i) * (i + 1) := Nat.mul_pos (by omega) (by omega)
    omega
  · have hpos : 0 < (j - i) * (i + 1) := Nat.mul_pos (by omega) (by omega)
    have hik : i ≤ (j - i) * (i + 1) - 1 := by
      have := Nat.le_mul_of_pos_left (i + 1) (show 0 < j - i by omega)
      omega
    have h2k : 2 * ((j - i) * (i + 1) - 1) + 1
        = ((j - i) * (i + 1) - 1) + (i + 1) * (j - i) := by
      have hcomm : (i + 1) * (j - i) = (j - i) * (i + 1) := Nat.mul_comm _ _
      omega
    have hper := walk_period_mul h v i j (le_of_lt hij) heq (i + 1)
      ((j - i) * (i + 1) - 1) hik
    rw [← h2k] at hper
    exact hper.symm

/-- Pigeonhole: if the whole cdr chain consists of pairs, it must
repeat, and an in-phase meeting exists below the fuel budget. -/
theorem cyclic_meeting (h : List (Val × Val)) (v : Val)
    (hall : ∀ n, isPairV (walk h n v) = true) :
    ∃ k, k < (h.length + 2) * (h.length + 2) ∧ walk h k v = walk h (2 * k + 1) v := by
  classical
  have hmaps : ∀ m ∈ Finset.range (h.length + 1),
      walk h (m + 1) v ∈ (h.map Prod.snd).toFinset := by
    intro m _
    rw [List.mem_toFinset]
    exact walk_stored h v m (hall (m + 1))
  have hcard : (h.map Prod.snd).toFinset.card < (Finset.range (h.length + 1)).card := by
    rw [Finset.card_range]
    have h1 := List.toFinset_card_le (h.map Prod.snd)
    rw [List.length_map] at h1
    omega
  obtain ⟨m1, hm1, m2, hm2, hne, heq⟩ :=
    Finset.exists_ne_map_eq_of_card_lt_of_maps_to hcard hmaps
  rw [Finset.mem_range] at hm1 hm2
  rcases Nat.lt_or_ge m1 m2 with hlt | hge
  · exact meeting_of_repeat h v (m1 + 1) (m2 + 1) (by omega) (by omega) (by omega) heq
  · have hlt2 : m2 < m1 := by omega
    exact meeting_of_repeat h v (m2 + 1) (m1 + 1) (by omega) (by omega) (by omega) heq.symm

/-- C6: on fuel at least `(heap size + 2)^2` the tortoise-hare loop of
`IsList::evalRator` always terminates (never runs out of fuel, i.e. in
C++ the `while` loop always exits), answers `true` exactly when the
cdr chain from the argument reaches `Null`, and answers `false` on
every cyclic cdr chain instead of diverging. -/
theorem isList_terminates_and_correct (h : List (Val × Val)) (v : Val) (fuel : Nat)
    (hf : listFuel h ≤ fuel) :
    (isListRator h fuel v).isSome = true
    ∧ (isListRator h fuel v = some true ↔ ∃ n, walk h n v = Val.NullV)
    ∧ ((∃ i j, i < j ∧ walk h i v = walk h j v ∧ isPairV (walk h i v) = true) →
        isListRator h fuel v = some false) := by
  classical
  rw [listFuel] at hf
  have hsq : h.length + 2 ≤ (h.length + 2) * (h.length + 2) :=
    Nat.le_mul_of_pos_left (h.length + 2) (by omega)
  by_cases hnull : isNullV v = true
  · have hv0 : v = Val.NullV := isNullV_eq v hnull
    have hrw : isListRator h fuel v = some true := by
      rw [isListRator, hnull]
      rfl
    have hwalknull : ∀ n, walk h n v = Val.NullV := by
      intro n
      have h0 : isPairV (walk h 0 v) = false := by rw [hv0]; rfl
      have habs := walk_absorb h v 0 h0 n (Nat.zero_le n)
      rw [habs]
      exact hv0
    refine ⟨by rw [hrw]; rfl, ?_, ?_⟩
    · rw [hrw]
      exact iff_of_true rfl ⟨0, hwalknull 0⟩
    · rintro ⟨i, j, hij, heqw, hpi⟩
      rw [hwalknull i] at hpi
      exact absurd hpi (by simp [isPairV])
  · rw [Bool.not_eq_true] at hnull
    by_cases hpair : isPairV v = true
    · by_cases hB : ∀ n, isPairV (walk h n v) = true
      · obtain ⟨k, hk, hkeq⟩ := cyclic_meeting h v hB
        have hloop := isListLoop_cyclic h v hB fuel 0 ⟨k, Nat.zero_le k, by omega, hkeq⟩
        have e1 : walk h 0 v = v := rfl
        have e2 : walk h (2 * 0 + 1) v = nextV h v := rfl
        rw [e1, e2] at hloop
        have hrw : isListRator h fuel v = some false := by
          rw [isListRator, hnull, hpair]
          simp only [Bool.not_true, if_neg Bool.false_ne_true]
          exact hloop
        refine ⟨by rw [hrw]; rfl, ?_, fun _ => hrw⟩
        rw [hrw]
        constructor
        · intro hcontra
          exact absurd hcontra (by simp)
        · rintro ⟨n, hn⟩
          have hpn := hB n
          rw [hn] at hpn
          exact absurd hpn (by simp [isPairV])
      · push_neg at hB
        have hA : ∃ n, isPairV (walk h n v) = false := by
          obtain ⟨n, hn⟩ := hB
          exact ⟨n, by simpa using hn⟩
        have htp : isPairV (walk h (Nat.find hA) v) = false := Nat.find_spec hA
        have htmin : ∀ j, j < Nat.find hA → isPairV (walk h j v) = true := by
          intro j hj
          have := Nat.find_min hA hj
          simpa using this
        have hdist : ∀ i j, i < j → j < Nat.find hA → walk h i v ≠ walk h j v := by
          intro i j hij hjt heqw
          have hmod := walk_mod h v i j hij heqw (Nat.find hA) (by omega)
          have hmlt : (Nat.find hA - i) % (j - i) < j - i := Nat.mod_lt _ (by omega)
          have hr : i + (Nat.find hA - i) % (j - i) < Nat.find hA := by omega
          have hpr := htmin _ hr
          rw [hmod] at htp
          rw [htp] at hpr
          exact Bool.noConfusion hpr
        have htN : Nat.find hA ≤ h.length + 1 := by
          by_cases ht1 : Nat.find hA ≤ 1
          · omega
          · have hmaps : ∀ m ∈ Finset.Ico 1 (Nat.find hA),
                walk h m v ∈ (h.map Prod.snd).toFinset := by
              intro m hm
              rw [Finset.mem_Ico] at hm
              rw [List.mem_toFinset]
              have hm1 : m - 1 + 1 = m := by omega
              rw [← hm1]
              exact walk_stored h v (m - 1) (by rw [hm1]; exact htmin m hm.2)
            have hinj : Set.InjOn (fun m => walk h m v) ↑(Finset.Ico 1 (Nat.find hA)) := by
              intro a ha b hb heqab
              simp only [Finset.coe_Ico, Set.mem_Ico] at ha hb
              by_contra hne
              rcases Nat.lt_or_ge a b with hlt | hge2
              · exact hdist a b hlt hb.2 heqab
              · exact hdist b a (by omega) ha.2 heqab.symm
            have hcard := Finset.card_le_card_of_injOn _ hmaps hinj
            rw [Nat.card_Ico] at hcard
            have hlen := List.toFinset_card_le (h.map Prod.snd)
            rw [List.length_map] at hlen
            omega
        have ht0 : 1 ≤ Nat.find hA := by
          rcases Nat.eq_zero_or_pos (Nat.find hA) with h0 | h1
          · rw [h0] at htp
            exact absurd (htp.symm.trans hpair) Bool.false_ne_true
          · exact h1
        have hloop := isListLoop_reaches h v (Nat.find hA) htmin htp hdist fuel 0
          (by omega) (by omega)
        have e1 : walk h 0 v = v := rfl
        have e2 : walk h (2 * 0 + 1) v = nextV h v := rfl
        rw [e1, e2] at hloop
        have hrw : isListRator h fuel v
            = some (isNullV (walk h (Nat.find hA) v)) := by
          rw [isListRator, hnull, hpair]
          simp only [Bool.not_true, if_neg Bool.false_ne_true]
          exact hloop
        refine ⟨by rw [hrw]; rfl, ?_, ?_⟩
        · rw [hrw]
          simp only [Option.some.injEq]
          constructor
          · intro hnt
            exact ⟨Nat.find hA, isNullV_eq _ hnt⟩
          · rintro ⟨n, hn⟩
            have hpn : isPairV (walk h n v) = false := by rw [hn]; rfl
            have htn := Nat.find_min hA (m := n)
            have htn2 : Nat.find hA ≤ n := Nat.find_min' hA hpn
            rw [walk_absorb h v (Nat.find hA) htp n htn2] at hn
            rw [hn]
            rfl
        · rintro ⟨i, j, hij, heqw, hpi⟩
          exfalso
          have hit : i < Nat.find hA := by
            by_contra hcc
            rw [walk_absorb h v (Nat.find hA) htp i (by omega)] at hpi
            exact Bool.noConfusion (htp.symm.trans hpi)
          have hjt : j < Nat.find hA := by
            by_contra hcc
            rw [walk_absorb h v (Nat.find hA) htp j (by omega)] at heqw
            rw [heqw] at hpi
            exact Bool.noConfusion (htp.symm.trans hpi)
          exact hdist i j hij hjt heqw
    · rw [Bool.not_eq_true] at hpair
      have hrw : isListRator h fuel v = some false := by
        rw [isListRator, hnull, hpair]
        rfl
      refine ⟨by rw [hrw]; rfl, ?_, fun _ => hrw⟩
      rw [hrw]
      constructor
      · intro hcontra
        exact absurd hcontra (by simp)
      · rintro ⟨n, hn⟩
        have h0 : isPairV (walk h 0 v) = false := hpair
        rw [walk_absorb h v 0 h0 n (Nat.zero_le n)] at hn
        have hv : v = Val.NullV := hn
        have : isNullV v = true := by rw [hv]; rfl
        exact Bool.noConfusion (hnull.symm.trans this)

/-- Witness for C6: on the one-pair heap whose single pair is its own
cdr (a cyclic chain), with exactly the guaranteed fuel `(1+2)^2 = 9`,
`list?` answers `false`. -/
theorem isList_terminates_and_correct_witness :
    listFuel [(Val.IntegerV 1, Val.PairV 0)] ≤ 9
    ∧ isListRator [(Val.IntegerV 1, Val.PairV 0)] 9 (Val.PairV 0) = some false := by
  refine ⟨by decide, ?_⟩
  exact (isList_terminates_and_correct [(Val.IntegerV 1, Val.PairV 0)] (Val.PairV 0) 9
    (by decide)).2.2 ⟨0, 1, by omega, rfl, rfl⟩

end Scheme
